import Mathlib

/-
Verification development for the chess-robot board engine
(board_item.py): the 10×12 state grid, the 19×23 node grid,
the A-star path planner and the move bookkeeping of BoardItem.
Shallow embedding: grids are lists of lists of cell strings,
the python heap is modelled by popping the minimum entry under
the python tuple ordering, and loops become structural or
fuel-bounded recursion.
-/

namespace ChessGame

/-! ### Grids and cells -/

abbrev Cell := String
abbrev Grid := List (List Cell)
abbrev Node := Nat × Nat

def stateRows : Nat := 10
def stateCols : Nat := 12
def nodeRows : Nat := 19
def nodeCols : Nat := 23

/-- Read a grid cell; out-of-range reads return a sentinel (all
uses in the development are in range). -/
def getCellN (g : Grid) (r c : Nat) : Cell :=
  (((g.get? r).getD []).get? c).getD "?"

/-- Write a grid cell; out-of-range writes are dropped (the source
never writes out of range). -/
def setCellN (g : Grid) (r c : Nat) (v : Cell) : Grid :=
  g.set r (((g.get? r).getD []).set c v)

def emptyStateBoard : Grid := List.replicate stateRows (List.replicate stateCols ".")

def emptyNodeGrid : Grid := List.replicate nodeRows (List.replicate nodeCols ".")

/-- A grid has exactly the given rectangular shape. -/
def gridWF (g : Grid) (rows cols : Nat) : Prop :=
  g.length = rows ∧ ∀ row ∈ g, row.length = cols

instance (g : Grid) (rows cols : Nat) : Decidable (gridWF g rows cols) := by
  unfold gridWF; infer_instance

/-! ### The pathfinder of BoardItem.plan_path

From the nested helper functions neighbors, man_dist and astar
of plan_path.  Cells count as python strings; the python test
cell.isdigit() becomes isDigitStr. -/

def isDigitStr (s : String) : Bool := s ≠ "" && s.data.all Char.isDigit

/-- The 8 candidate offsets checked by the neighbors helper, in source order. -/
def offsets : List (Int × Int) :=
  [(-1,0),(1,0),(0,-1),(0,1),(-1,-1),(-1,1),(1,-1),(1,1)]

/-- One inner step of the diagonal corner check of neighbors: a squeeze cell
blocks unless it reads as empty, as the digit string of the product of its own
indices, or as the same value as the destination cell. -/
def blockCheck (g : Grid) (nr nc : Nat) (p : Nat × Nat) : Bool :=
  let cell := getCellN g p.1 p.2
  !(cell == "." || cell == toString (p.1 * p.2) || cell == getCellN g nr nc)

/-- The cells inspected by the diagonal check: the 2×2 block spanned by the
current node and the diagonal destination, with the current node skipped. -/
def squeezeCells (r c nr nc : Nat) : List (Nat × Nat) :=
  ([(r, c), (r, nc), (nr, c), (nr, nc)]).filter (fun p => p ≠ (r, c))

def diagBlocked (g : Grid) (r c nr nc : Nat) : Bool :=
  (squeezeCells r c nr nc).any (blockCheck g nr nc)

/-- Evaluate one offset of the neighbors helper: bounds test, cell test
(empty, numeric capture placeholder, or the goal), and for diagonal offsets
the corner-cut test. -/
def checkNeighbor (g : Grid) (r c : Nat) (goal : Node) (d : Int × Int) : Option Node :=
  let nri : Int := (r : Int) + d.1
  let nci : Int := (c : Int) + d.2
  if 0 ≤ nri ∧ nri < (nodeRows : Int) ∧ 0 ≤ nci ∧ nci < (nodeCols : Int) then
    let nr := nri.toNat
    let nc := nci.toNat
    let cell := getCellN g nr nc
    if cell == "." || isDigitStr cell || (nr, nc) == goal then
      if d.1.natAbs == 1 && d.2.natAbs == 1 then
        if diagBlocked g r c nr nc then none else some (nr, nc)
      else some (nr, nc)
    else none
  else none

/-- The neighbors helper of plan_path: the valid moves from node (r, c). -/
def neighbors (g : Grid) (r c : Nat) (goal : Node) : List Node :=
  offsets.filterMap (checkNeighbor g r c goal)

/-- The man_dist helper of plan_path. -/
def man_dist (a b : Node) : Nat := Nat.dist a.1 b.1 + Nat.dist a.2 b.2

/-- One entry of the python heap: (estimated total, cost so far, node, path). -/
structure Entry where
  fscore : Nat
  gscore : Nat
  node : Node
  path : List Node
  deriving DecidableEq

def pairLt (a b : Node) : Bool := a.1 < b.1 || (a.1 == b.1 && a.2 < b.2)

/-- Python list comparison on paths (lexicographic). -/
def pathLt : List Node → List Node → Bool
  | [], [] => false
  | [], _ :: _ => true
  | _ :: _, [] => false
  | a :: as, b :: bs => pairLt a b || (a == b && pathLt as bs)

/-- Python tuple comparison on heap entries. -/
def entryLt (x y : Entry) : Bool :=
  x.fscore < y.fscore || (x.fscore == y.fscore && (x.gscore < y.gscore ||
    (x.gscore == y.gscore && (pairLt x.node y.node ||
      (x.node == y.node && pathLt x.path y.path)))))

/-- heapq.heappop: extract a minimal entry under the python tuple order. -/
def popMin : List Entry → Option (Entry × List Entry)
  | [] => none
  | e :: es =>
    match popMin es with
    | none => some (e, [])
    | some (m, r) => if entryLt m e then some (m, e :: r) else some (e, es)

/-- The main loop of the astar helper; one unit of fuel per iteration of the
python while loop (the fuel used at the call sites exceeds any possible
iteration count on a 19×23 grid, so the model never runs dry there). -/
def astarLoop (g : Grid) (goal : Node) : Nat → List Entry → List Node → Option (List Node)
  | 0, _, _ => none
  | fuel+1, openSet, visited =>
    match popMin openSet with
    | none => none
    | some (e, rest) =>
      if e.node ∈ visited then astarLoop g goal fuel rest visited
      else
        let visited' := e.node :: visited
        if e.node == goal then some e.path
        else
          let nbrs := (neighbors g e.node.1 e.node.2 goal).filter
            (fun nbr => decide (nbr ∉ visited'))
          let pushes := nbrs.map (fun nbr =>
            { fscore := e.gscore + 1 + man_dist nbr goal, gscore := e.gscore + 1,
              node := nbr, path := e.path ++ [nbr] : Entry })
          astarLoop g goal fuel (rest ++ pushes) visited'

/-- The astar helper of plan_path. -/
def astar (g : Grid) (fuel : Nat) (start goal : Node) : Option (List Node) :=
  if start == goal then some [start]
  else astarLoop g goal fuel [⟨man_dist start goal, 0, start, [start]⟩] []

/-- A node sequence that respects the adjacency and occupancy rules of the
pathfinder: nonempty, and every consecutive pair is a step permitted by the
neighbors helper (with the usual goal exception). -/
def validPath (g : Grid) (goal : Node) : List Node → Bool
  | [] => false
  | [_] => true
  | a :: b :: rest => (b ∈ neighbors g a.1 a.2 goal : Bool) && validPath g goal (b :: rest)

/-! ### Soundness of the astar helper: returned paths are valid paths -/

/-- Invariant carried by every heap entry: its path runs from the search
start to the entry's node and respects the neighbor rules. -/
def EntryInv (g : Grid) (goal start : Node) (e : Entry) : Prop :=
  e.path.head? = some start ∧ e.path.getLast? = some e.node ∧
    validPath g goal e.path = true

theorem validPath_cons_cons (g : Grid) (goal x y : Node) (l : List Node) :
    validPath g goal (x :: y :: l) =
      ((y ∈ neighbors g x.1 x.2 goal : Bool) && validPath g goal (y :: l)) := rfl

theorem popMin_mem : ∀ {l : List Entry} {e : Entry} {rest : List Entry},
    popMin l = some (e, rest) → e ∈ l ∧ ∀ x ∈ rest, x ∈ l := by
  intro l
  induction l with
  | nil => intro e rest h; simp [popMin] at h
  | cons a as ih =>
    intro e rest h
    simp only [popMin] at h
    split at h
    · simp only [Option.some.injEq, Prod.mk.injEq] at h
      obtain ⟨rfl, rfl⟩ := h
      exact ⟨List.mem_cons_self _ _, by simp⟩
    · rename_i m r hm
      split at h
      · simp only [Option.some.injEq, Prod.mk.injEq] at h
        obtain ⟨rfl, rfl⟩ := h
        obtain ⟨hm1, hm2⟩ := ih hm
        refine ⟨List.mem_cons_of_mem _ hm1, ?_⟩
        intro x hx
        rcases List.mem_cons.mp hx with h1 | h2
        · subst h1; exact List.mem_cons_self _ _
        · exact List.mem_cons_of_mem _ (hm2 x h2)
      · simp only [Option.some.injEq, Prod.mk.injEq] at h
        obtain ⟨rfl, rfl⟩ := h
        exact ⟨List.mem_cons_self _ _, fun x hx => List.mem_cons_of_mem _ hx⟩

theorem validPath_append {g : Grid} {goal : Node} :
    ∀ {p : List Node} {cur b : Node}, validPath g goal p = true →
    p.getLast? = some cur → b ∈ neighbors g cur.1 cur.2 goal →
    validPath g goal (p ++ [b]) = true := by
  intro p
  induction p with
  | nil => intro cur b _ hl _; simp at hl
  | cons a rest ih =>
    intro cur b hv hl hb
    cases rest with
    | nil =>
      simp only [List.getLast?_singleton, Option.some.injEq] at hl
      subst hl
      simpa [validPath] using hb
    | cons a2 rest2 =>
      rw [validPath_cons_cons, Bool.and_eq_true] at hv
      have hl' : (a2 :: rest2).getLast? = some cur := by
        rw [List.getLast?_cons_cons] at hl; exact hl
      have hrec := ih hv.2 hl' hb
      simp only [List.cons_append] at hrec ⊢
      rw [validPath_cons_cons]
      simp [hv.1, hrec]

theorem astarLoop_sound {g : Grid} {goal start : Node} :
    ∀ (fuel : Nat) (openSet : List Entry) (visited : List Node) (p : List Node),
    (∀ e ∈ openSet, EntryInv g goal start e) →
    astarLoop g goal fuel openSet visited = some p →
    p.head? = some start ∧ p.getLast? = some goal ∧ validPath g goal p = true := by
  intro fuel
  induction fuel with
  | zero => intro _ _ _ h hrun; simp [astarLoop] at hrun
  | succ n ih =>
    intro openSet visited p hinv hrun
    simp only [astarLoop] at hrun
    split at hrun
    · simp at hrun
    · rename_i e rest hpop
      have hmem := popMin_mem hpop
      have hinve : EntryInv g goal start e := hinv e hmem.1
      by_cases hv : e.node ∈ visited
      · rw [if_pos hv] at hrun
        exact ih rest visited p (fun x hx => hinv x (hmem.2 x hx)) hrun
      · rw [if_neg hv] at hrun
        by_cases hg : e.node = goal
        · have : (e.node == goal) = true := by simpa using hg
          rw [if_pos this] at hrun
          obtain ⟨h1, h2, h3⟩ := hinve
          cases hrun
          exact ⟨h1, by rw [h2, hg], h3⟩
        · have : (e.node == goal) = false := by simpa using hg
          rw [this] at hrun
          simp only [Bool.false_eq_true, if_false] at hrun
          refine ih _ _ p ?_ hrun
          intro x hx
          rcases List.mem_append.mp hx with hx1 | hx2
          · exact hinv x (hmem.2 x hx1)
          · obtain ⟨nbr, hnbr, hxeq⟩ := List.mem_map.mp hx2
            have hnbr' : nbr ∈ neighbors g e.node.1 e.node.2 goal :=
              List.mem_of_mem_filter hnbr
            obtain ⟨h1, h2, h3⟩ := hinve
            subst hxeq
            refine ⟨?_, ?_, ?_⟩
            · cases hp : e.path with
              | nil => rw [hp] at h1; simp at h1
              | cons a t =>
                rw [hp] at h1
                simpa using h1
            · simp
            · exact validPath_append h3 h2 hnbr'

theorem astar_sound {g : Grid} {fuel : Nat} {start goal : Node} {p : List Node}
    (h : astar g fuel start goal = some p) :
    p.head? = some start ∧ p.getLast? = some goal ∧ validPath g goal p = true := by
  unfold astar at h
  by_cases hsg : start = goal
  · have : (start == goal) = true := by simpa using hsg
    rw [if_pos this] at h
    cases h
    exact ⟨rfl, by simp [hsg], rfl⟩
  · have : (start == goal) = false := by simpa using hsg
    rw [this] at h
    simp only [Bool.false_eq_true, if_false] at h
    exact astarLoop_sound fuel _ [] p
      (by
        intro e he
        simp only [List.mem_singleton] at he
        subst he
        exact ⟨rfl, rfl, rfl⟩) h

/-! ### Claim C1: optimality of the astar search -/

/-- A 19×23 node grid, empty except one blocking piece at (3,2). -/
def c1grid : Grid := setCellN emptyNodeGrid 3 2 "P"

/-- The path the astar helper returns on c1grid from (4,0) to (2,7): 8 steps. -/
def c1path : List Node := [(4,0),(3,1),(2,1),(2,2),(2,3),(2,4),(2,5),(2,6),(2,7)]

/-- A valid path on c1grid from (4,0) to (2,7) with only 7 steps. -/
def c1short : List Node := [(4,0),(4,1),(4,2),(4,3),(4,4),(4,5),(3,6),(2,7)]

/-- Claim C1, counterexample: on the occupancy c1grid the astar search used
by plan_path returns an 8-step path from (4,0) to (2,7), while c1short is a
node sequence between the same endpoints respecting the same adjacency and
occupancy rules with strictly fewer (7) steps.  The Manhattan estimator
overestimates the octile distance, so the search is not optimal. -/
theorem c1_counterexample :
    astar c1grid 4000 (4,0) (2,7) = some c1path ∧
    c1short.head? = some (4,0) ∧ c1short.getLast? = some (2,7) ∧
    validPath c1grid (2,7) c1short = true ∧
    c1short.length < c1path.length := by
  refine ⟨by decide, by decide, by decide, by decide, by decide⟩

/-- Claim C1 (amended): when the astar search used by plan_path returns a
path, that path runs from the start node to the goal node and respects the
adjacency and occupancy rules (each consecutive pair is a step allowed by
the neighbors rule), but it need not be a shortest such sequence. -/
theorem c1_astar_returns_valid_path {g : Grid} {fuel : Nat} {start goal : Node}
    {p : List Node} (h : astar g fuel start goal = some p) :
    p.head? = some start ∧ p.getLast? = some goal ∧ validPath g goal p = true :=
  astar_sound h

/-- Witness for c1_astar_returns_valid_path at a concrete run. -/
theorem c1_astar_returns_valid_path_witness :
    ([(0,0),(1,1),(2,2)] : List Node).head? = some (0,0) ∧
    ([(0,0),(1,1),(2,2)] : List Node).getLast? = some (2,2) ∧
    validPath emptyNodeGrid (2,2) [(0,0),(1,1),(2,2)] = true :=
  @c1_astar_returns_valid_path emptyNodeGrid 4000 (0,0) (2,2)
    [(0,0),(1,1),(2,2)] (by decide)

/-! ### Claim C2: the diagonal corner-cut rule of neighbors -/

theorem diagBlocked_eq {g : Grid} {r c nr nc : Nat} (h1 : nr ≠ r) (h2 : nc ≠ c) :
    diagBlocked g r c nr nc =
      (blockCheck g nr nc (r, nc) || blockCheck g nr nc (nr, c)) := by
  have ha : ((r, nc) : Nat × Nat) ≠ (r, c) := by simp [h2]
  have hb : ((nr, c) : Nat × Nat) ≠ (r, c) := by simp [h1]
  have hc : ((nr, nc) : Nat × Nat) ≠ (r, c) := by simp [h1]
  have hself : blockCheck g nr nc (nr, nc) = false := by
    simp [blockCheck]
  simp [diagBlocked, squeezeCells, List.filter_cons, ha, hb, hc, hself]

theorem checkNeighbor_eq_some {g : Grid} {r c : Nat} {goal b : Node} {d : Int × Int}
    (h : checkNeighbor g r c goal d = some b) :
    0 ≤ (r : Int) + d.1 ∧ (r : Int) + d.1 < (nodeRows : Int) ∧
    0 ≤ (c : Int) + d.2 ∧ (c : Int) + d.2 < (nodeCols : Int) ∧
    b = (((r : Int) + d.1).toNat, ((c : Int) + d.2).toNat) := by
  simp only [checkNeighbor] at h
  split at h
  · rename_i hbnd
    obtain ⟨hb1, hb2, hb3, hb4⟩ := hbnd
    split at h
    · split at h
      · split at h
        · exact absurd h (by simp)
        · cases h; exact ⟨hb1, hb2, hb3, hb4, rfl⟩
      · cases h; exact ⟨hb1, hb2, hb3, hb4, rfl⟩
    · exact absurd h (by simp)
  · exact absurd h (by simp)

/-- A 19×23 node grid, empty except one blocking piece at (4,5). -/
def c2grid : Grid := setCellN emptyNodeGrid 4 5 "P"

/-- Claim C2, counterexample: from node (4,4) with diagonal offset (1,1),
only one of the two orthogonal cells adjacent to the diagonal is occupied
((4,5) holds a piece, (5,4) is empty), yet the diagonal step to (5,5) is
excluded by the neighbor rule — the code blocks on at least one occupied
squeeze cell, not on both. -/
theorem c2_counterexample :
    getCellN c2grid 4 5 = "P" ∧ getCellN c2grid 5 4 = "." ∧
    getCellN c2grid 5 5 = "." ∧
    (5, 5) ∉ neighbors c2grid 4 4 (0, 0) := by
  refine ⟨by decide, by decide, by decide, by decide⟩

/-- Claim C2 (amended): for a diagonal offset, the step from (r,c) to
(nr,nc) is permitted exactly when NEITHER of the two orthogonal cells
adjacent to the diagonal blocks, where a cell blocks unless it reads as
empty, as the digit string of the product of its own indices, or as the
same value as the destination cell. -/
theorem c2_diagonal_rule {g : Grid} {goal : Node} {r c nr nc : Nat}
    (hnr : nr < nodeRows) (hnc : nc < nodeCols)
    (hrd : nr = r + 1 ∨ r = nr + 1) (hcd : nc = c + 1 ∨ c = nc + 1)
    (hcell : (getCellN g nr nc == "." || isDigitStr (getCellN g nr nc)
      || ((nr, nc) : Node) == goal) = true) :
    ((nr, nc) ∈ neighbors g r c goal ↔
      (blockCheck g nr nc (r, nc) = false ∧ blockCheck g nr nc (nr, c) = false)) := by
  have hnrr : nr ≠ r := by omega
  have hncc : nc ≠ c := by omega
  constructor
  · intro hmem
    unfold neighbors at hmem
    obtain ⟨d, hd, hsome⟩ := List.mem_filterMap.mp hmem
    obtain ⟨hb1, hb2, hb3, hb4, hbeq⟩ := checkNeighbor_eq_some hsome
    have hd1 : (nr : Int) = (r : Int) + d.1 := by
      have := congrArg Prod.fst hbeq
      simp only at this
      omega
    have hd2 : (nc : Int) = (c : Int) + d.2 := by
      have := congrArg Prod.snd hbeq
      simp only at this
      omega
    have e1 : ((r : Int) + d.1).toNat = nr := by omega
    have e2 : ((c : Int) + d.2).toNat = nc := by omega
    rcases hrd with h | h <;> rcases hcd with h' | h' <;>
    · have hdval : d = (((nr : Int) - r), ((nc : Int) - c)) := by
        apply Prod.ext <;> simp <;> omega
      rw [hdval] at hsome
      simp only [checkNeighbor] at hsome
      rw [if_pos (by constructor <;> [omega; constructor <;> [omega; constructor <;> omega]])] at hsome
      have e1' : ((r : Int) + ((nr : Int) - r)).toNat = nr := by omega
      have e2' : ((c : Int) + ((nc : Int) - c)).toNat = nc := by omega
      rw [e1', e2'] at hsome
      rw [if_pos hcell] at hsome
      rw [if_pos (by simp; omega)] at hsome
      split at hsome
      · exact absurd hsome (by simp)
      · rename_i hdb
        rw [diagBlocked_eq hnrr hncc] at hdb
        simp only [Bool.or_eq_true, not_or, Bool.not_eq_true] at hdb
        exact ⟨hdb.1, hdb.2⟩
  · intro ⟨hbc1, hbc2⟩
    have hanyf : diagBlocked g r c nr nc = false := by
      rw [diagBlocked_eq hnrr hncc, hbc1, hbc2]
      rfl
    apply List.mem_filterMap.mpr
    refine ⟨(((nr : Int) - r), ((nc : Int) - c)), ?_, ?_⟩
    · simp only [offsets]
      rcases hrd with h | h <;> rcases hcd with h' | h' <;> simp <;> omega
    · simp only [checkNeighbor]
      rw [if_pos (by constructor <;> [omega; constructor <;> [omega; constructor <;> omega]])]
      have e1' : ((r : Int) + ((nr : Int) - r)).toNat = nr := by omega
      have e2' : ((c : Int) + ((nc : Int) - c)).toNat = nc := by omega
      rw [e1', e2']
      rw [if_pos hcell]
      rw [if_pos (by simp; rcases hrd with h | h <;> rcases hcd with h' | h' <;> omega)]
      rw [if_neg (by rw [hanyf]; simp)]

/-- Witness for c2_diagonal_rule at a concrete grid (both sides true). -/
theorem c2_diagonal_rule_witness :
    ((5, 5) ∈ neighbors emptyNodeGrid 4 4 (0, 0) ↔
      (blockCheck emptyNodeGrid 5 5 (4, 5) = false ∧
        blockCheck emptyNodeGrid 5 5 (5, 4) = false)) :=
  c2_diagonal_rule (by decide) (by decide) (Or.inl rfl) (Or.inl rfl) (by decide)

/-! ### Pieces, squares, and the logical chess position

The logical position and move legality live in the external python chess
library; BoardItem only queries piece_at, parse_uci and push.  The position
is modelled as an association list keyed by (file, rank) and legality as an
oracle parameter. -/

inductive PieceKind
  | pawn | knight | bishop | rook | queen | king
  deriving DecidableEq

structure Piece where
  kind : PieceKind
  white : Bool
  deriving DecidableEq

def PieceKind.symbolChar : PieceKind → Char
  | .pawn => 'p'
  | .knight => 'n'
  | .bishop => 'b'
  | .rook => 'r'
  | .queen => 'q'
  | .king => 'k'

/-- piece.symbol() of the library: uppercase for white, lowercase for black. -/
def Piece.symbol (p : Piece) : String :=
  if p.white then String.singleton p.kind.symbolChar.toUpper
  else String.singleton p.kind.symbolChar

abbrev Pos := List ((Nat × Nat) × Piece)

def pieceAt (pos : Pos) (file rank : Nat) : Option Piece :=
  (pos.find? (fun e => e.1 == (file, rank))).map (·.2)

structure Move where
  fromFile : Nat
  fromRank : Nat
  toFile : Nat
  toRank : Nat
  promo : Option Char
  deriving DecidableEq

/-- The python exceptions that BoardItem.move_piece / plan_path can let
escape: failed square-pair decode, failed legality check, attribute access
on None, subscripting None, and a missing promo_map key. -/
inductive MoveErr
  | malformed | illegal | attrError | typeError | keyError
  deriving DecidableEq

def fileOfChar (ch : Char) : Option Nat :=
  if 'a' ≤ ch ∧ ch ≤ 'h' then some (ch.toNat - 'a'.toNat) else none

def rankOfChar (ch : Char) : Option Nat :=
  if '1' ≤ ch ∧ ch ≤ '8' then some (ch.toNat - '1'.toNat) else none

def promoOfChar (ch : Char) : Option Char :=
  if ch = 'q' ∨ ch = 'r' ∨ ch = 'b' ∨ ch = 'n' then some ch else none

/-- Move.from_uci of the library: a 4 character square pair, optionally
followed by a promotion piece letter. -/
def parseUciStr (u : String) : Option Move :=
  match u.data with
  | [f1, r1, f2, r2] =>
    match fileOfChar f1, rankOfChar r1, fileOfChar f2, rankOfChar r2 with
    | some a, some b, some c, some d => some ⟨a, b, c, d, none⟩
    | _, _, _, _ => none
  | [f1, r1, f2, r2, pc] =>
    match fileOfChar f1, rankOfChar r1, fileOfChar f2, rankOfChar r2, promoOfChar pc with
    | some a, some b, some c, some d, some p => some ⟨a, b, c, d, some p⟩
    | _, _, _, _, _ => none
  | _ => none

/-- Board.parse_uci of the library: decode the squares, then check the move
against the current position's legal moves (the rules themselves are the
library's, abstracted as the oracle argument). -/
def parse_uci (legal : Pos → Move → Bool) (pos : Pos) (u : String) :
    Except MoveErr Move :=
  match parseUciStr u with
  | none => .error .malformed
  | some m => if legal pos m then .ok m else .error .illegal

def removeAt (pos : Pos) (file rank : Nat) : Pos :=
  pos.filter (fun e => !(e.1 == (file, rank)))

/-- Modelled from the spec: Board.push of the external chess-rules
collaborator (not part of this repository).  Relocates the mover (replaced
by the promotion piece when one is given), removes a captured piece —
including the structurally detected en passant victim on origin rank,
destination file — and relocates the rook on castling. -/
def pushMove (pos : Pos) (m : Move) (promoKind : Option PieceKind) : Pos :=
  match pieceAt pos m.fromFile m.fromRank with
  | none => pos
  | some p =>
    let isEp := p.kind == PieceKind.pawn && Nat.dist m.toFile m.fromFile == 1 &&
      (pieceAt pos m.toFile m.toRank).isNone
    let pos1 := removeAt pos m.fromFile m.fromRank
    let pos2 := removeAt pos1 m.toFile m.toRank
    let pos3 := if isEp then removeAt pos2 m.toFile m.fromRank else pos2
    let moved : Piece := { kind := promoKind.getD p.kind, white := p.white }
    let pos4 := ((m.toFile, m.toRank), moved) :: pos3
    if p.kind == PieceKind.king && Nat.dist m.toFile m.fromFile > 1 then
      let rsf := if m.toFile > m.fromFile then 7 else 0
      let ref := if m.toFile > m.fromFile then m.toFile - 1 else m.toFile + 1
      match pieceAt pos4 rsf m.fromRank with
      | some rook => ((ref, m.fromRank), rook) :: removeAt pos4 rsf m.fromRank
      | none => pos4
    else pos4

/-! ### The BoardItem state and its grid derivations -/

@[ext]
structure GameState where
  pos : Pos
  capturedWhite : List String
  capturedBlack : List String
  whitePromos : List String
  blackPromos : List String
  stateBoard : Grid
  nodeGrid : Grid
  deriving DecidableEq

/-- The preallocated capture square indices for black pieces. -/
def blackCaptures : List (Nat × Nat) :=
  [(3,1),(2,1),(1,1),(0,1),(0,2),(0,3),(0,4),(0,5),
   (0,6),(0,7),(0,8),(0,9),(0,10),(1,10),(2,10),(3,10)]

/-- The preallocated capture square indices for white pieces. -/
def whiteCaptures : List (Nat × Nat) :=
  [(6,1),(7,1),(8,1),(9,1),(9,2),(9,3),(9,4),(9,5),
   (9,6),(9,7),(9,8),(9,9),(9,10),(8,10),(7,10),(6,10)]

/-- The starting promotion piece layout for white. -/
def initWhitePromos : List String := ["B","N","R","Q","Q","Q","Q","B","N","R"]

/-- The starting promotion piece layout for black. -/
def initBlackPromos : List String := ["b","n","r","q","q","q","q","b","n","r"]

/-- python str.upper on a cell string. -/
def strUpper (s : String) : String := ⟨s.data.map Char.toUpper⟩

/-- Inner loop of the 8×8 mapping of _populate_state_board: for one rank,
write every occupied file into grid row rank+1, column file+2.  Files are
processed in ascending order. -/
def writeBoardFiles (pos : Pos) (rank : Nat) : Nat → Grid → Grid
  | 0, g => g
  | file+1, g =>
    let g' := writeBoardFiles pos rank file g
    match pieceAt pos file (7 - rank) with
    | some p => setCellN g' (rank + 1) (file + 2) p.symbol
    | none => g'

/-- Outer loop of the 8×8 mapping of _populate_state_board. -/
def writeBoardRanks (pos : Pos) : Nat → Grid → Grid
  | 0, g => g
  | rank+1, g => writeBoardFiles pos rank 8 (writeBoardRanks pos rank g)

/-- The promotion lane writes of _populate_state_board (enumerate order). -/
def writePromoLane (col : Nat) : Nat → List String → Grid → Grid
  | _, [], g => g
  | i, p :: rest, g => writePromoLane col (i + 1) rest (setCellN g i col p)

/-- The captured piece writes of _populate_state_board: captured piece i is
placed at slot i of the given table.  An index beyond the table would raise
in the source; it is a dropped write here and never occurs in a game. -/
def writeCaptured (slots : List (Nat × Nat)) : Nat → List String → Grid → Grid
  | _, [], g => g
  | i, p :: rest, g =>
    let g' := match slots.get? i with
      | some rc => setCellN g rc.1 rc.2 p
      | none => g
    writeCaptured slots (i + 1) rest g'

/-- The free capture slot numbering of _populate_state_board: a slot that
still reads as empty is overwritten with its own 1-based index. -/
def writePlaceholders : Nat → List (Nat × Nat) → Grid → Grid
  | _, [], g => g
  | i, rc :: rest, g =>
    let g' := if getCellN g rc.1 rc.2 == "." then
        setCellN g rc.1 rc.2 (toString (i + 1))
      else g
    writePlaceholders (i + 1) rest g'

/-- BoardItem._populate_state_board as a function of its inputs. -/
def populateStateBoard (pos : Pos) (capturedWhite capturedBlack whitePromos blackPromos :
    List String) : Grid :=
  let g1 := writeBoardRanks pos 8 emptyStateBoard
  let g2 := writePromoLane 0 0 whitePromos g1
  let g3 := writePromoLane 11 0 blackPromos g2
  let g4 := writeCaptured blackCaptures 0 capturedBlack g3
  let g5 := writeCaptured whiteCaptures 0 capturedWhite g4
  let g6 := writePlaceholders 0 blackCaptures g5
  writePlaceholders 0 whiteCaptures g6

/-- Inner loop of _populate_node_grid: one state row spread onto node row r*2. -/
def writeNodeCols (sb : Grid) (r : Nat) : Nat → Grid → Grid
  | 0, g => g
  | c+1, g => setCellN (writeNodeCols sb r c g) (r * 2) (c * 2) (getCellN sb r c)

/-- Outer loop of _populate_node_grid. -/
def writeNodeRows (sb : Grid) : Nat → Grid → Grid
  | 0, g => g
  | r+1, g => writeNodeCols sb r stateCols (writeNodeRows sb r g)

/-- BoardItem._populate_node_grid as a function of the state board. -/
def populateNodeGrid (sb : Grid) : Grid := writeNodeRows sb stateRows emptyNodeGrid

/-- BoardItem.update_from_chess: regenerate both grids from the position and
the capture / promotion bookkeeping; the node grid is spread from the state
board just written. -/
def updateFromChess (s : GameState) : GameState :=
  { s with
      stateBoard := populateStateBoard s.pos s.capturedWhite s.capturedBlack s.whitePromos s.blackPromos
      nodeGrid := populateNodeGrid (populateStateBoard s.pos s.capturedWhite s.capturedBlack s.whitePromos s.blackPromos) }

theorem updateFromChess_pos (s : GameState) : (updateFromChess s).pos = s.pos := by
  unfold updateFromChess
  rfl

theorem updateFromChess_capturedWhite (s : GameState) :
    (updateFromChess s).capturedWhite = s.capturedWhite := by
  unfold updateFromChess
  rfl

theorem updateFromChess_capturedBlack (s : GameState) :
    (updateFromChess s).capturedBlack = s.capturedBlack := by
  unfold updateFromChess
  rfl

theorem updateFromChess_whitePromos (s : GameState) :
    (updateFromChess s).whitePromos = s.whitePromos := by
  unfold updateFromChess
  rfl

theorem updateFromChess_blackPromos (s : GameState) :
    (updateFromChess s).blackPromos = s.blackPromos := by
  unfold updateFromChess
  rfl

theorem updateFromChess_stateBoard (s : GameState) :
    (updateFromChess s).stateBoard = populateStateBoard s.pos s.capturedWhite
      s.capturedBlack s.whitePromos s.blackPromos := by
  simp only [updateFromChess]

theorem updateFromChess_nodeGrid (s : GameState) :
    (updateFromChess s).nodeGrid = populateNodeGrid (populateStateBoard s.pos
      s.capturedWhite s.capturedBlack s.whitePromos s.blackPromos) := by
  simp only [updateFromChess]

/-! ### List set/get toolkit -/

theorem list_get?_set_ne {α : Type} (a : α) :
    ∀ (l : List α) (i j : Nat), i ≠ j → (l.set i a).get? j = l.get? j := by
  intro l
  induction l with
  | nil => intro i j _; simp
  | cons x t ih =>
    intro i j h
    cases i with
    | zero =>
      cases j with
      | zero => exact absurd rfl h
      | succ j => rfl
    | succ i =>
      cases j with
      | zero => rfl
      | succ j => exact ih i j (by omega)

theorem list_get?_set_self {α : Type} (a : α) :
    ∀ (l : List α) (i : Nat), i < l.length → (l.set i a).get? i = some a := by
  intro l
  induction l with
  | nil => intro i h; simp at h
  | cons x t ih =>
    intro i h
    cases i with
    | zero => rfl
    | succ i => exact ih i (by simpa using h)

theorem list_set_set {α : Type} (a b : α) :
    ∀ (l : List α) (i : Nat), (l.set i a).set i b = l.set i b := by
  intro l
  induction l with
  | nil => intro i; rfl
  | cons x t ih =>
    intro i
    cases i with
    | zero => rfl
    | succ i => simp only [List.set]; rw [ih]

theorem list_set_get_self {α : Type} (d : α) :
    ∀ (l : List α) (i : Nat), i < l.length → l.set i ((l.get? i).getD d) = l := by
  intro l
  induction l with
  | nil => intro i h; simp at h
  | cons x t ih =>
    intro i h
    cases i with
    | zero => rfl
    | succ i => simp only [List.set, List.get?]; rw [ih i (by simpa using h)]

theorem length_setCellN (g : Grid) (r c : Nat) (v : Cell) :
    (setCellN g r c v).length = g.length := by
  simp [setCellN]

/-- Blocking a cell and then restoring its saved value is the identity on
well-shaped grids. -/
theorem setCellN_cancel {g : Grid} {rows cols r c : Nat} (h : gridWF g rows cols)
    (hr : r < rows) (hc : c < cols) (v : Cell) :
    setCellN (setCellN g r c v) r c (getCellN g r c) = g := by
  obtain ⟨hlen, hrows⟩ := h
  have hrg : r < g.length := by omega
  cases hg : g.get? r with
  | none => rw [List.get?_eq_none] at hg; omega
  | some row =>
    have hrowlen : row.length = cols := hrows row (List.get?_mem hg)
    unfold setCellN getCellN
    rw [hg]
    simp only [Option.getD_some]
    rw [list_get?_set_self (row.set c v) g r hrg]
    simp only [Option.getD_some]
    rw [list_set_set, list_set_set]
    rw [list_set_get_self "?" row c (by omega)]
    have : (g.get? r).getD [] = row := by rw [hg]; rfl
    calc g.set r row = g.set r ((g.get? r).getD []) := by rw [this]
    _ = g := list_set_get_self [] g r hrg

/-! ### Decoding facts -/

theorem parse_uci_ok {legal : Pos → Move → Bool} {pos : Pos} {u : String} {m : Move}
    (h : parse_uci legal pos u = .ok m) :
    parseUciStr u = some m ∧ legal pos m = true := by
  unfold parse_uci at h
  split at h
  · simp at h
  · rename_i m' hm'
    split at h
    · cases h; exact ⟨hm', by assumption⟩
    · simp at h

theorem fileOfChar_le {ch : Char} {n : Nat} (h : fileOfChar ch = some n) : n ≤ 7 := by
  unfold fileOfChar at h
  split at h
  · rename_i hc
    cases h
    have h1 : ch.toNat ≤ 104 := by
      have := hc.2
      simp only [Char.le_def] at this
      exact this
    have e : Char.toNat 'a' = 97 := by decide
    omega
  · simp at h

theorem rankOfChar_le {ch : Char} {n : Nat} (h : rankOfChar ch = some n) : n ≤ 7 := by
  unfold rankOfChar at h
  split at h
  · rename_i hc
    cases h
    have h1 : ch.toNat ≤ 56 := by
      have := hc.2
      simp only [Char.le_def] at this
      exact this
    have e : Char.toNat '1' = 49 := by decide
    omega
  · simp at h

theorem parseUciStr_bounds {u : String} {m : Move} (h : parseUciStr u = some m) :
    m.fromFile ≤ 7 ∧ m.fromRank ≤ 7 ∧ m.toFile ≤ 7 ∧ m.toRank ≤ 7 := by
  unfold parseUciStr at h
  split at h
  · split at h
    · rename_i h1 h2 h3 h4
      cases h
      exact ⟨fileOfChar_le h1, rankOfChar_le h2, fileOfChar_le h3, rankOfChar_le h4⟩
    · simp at h
  · split at h
    · rename_i h1 h2 h3 h4 _
      cases h
      exact ⟨fileOfChar_le h1, rankOfChar_le h2, fileOfChar_le h3, rankOfChar_le h4⟩
    · simp at h
  · simp at h

/-! ### BoardItem.move_piece -/

/-- The promo_map dictionary of move_piece. -/
def promoMap (c : Char) : Option PieceKind :=
  if c == 'Q' then some .queen
  else if c == 'R' then some .rook
  else if c == 'B' then some .bishop
  else if c == 'N' then some .knight
  else none

/-- The bank consumption loop of move_piece: the first entry whose uppercase
form equals the requested promotion letter is replaced by the mover's pawn
marker; everything else is untouched. -/
def consumePromoEntry (pawnSym : String) (promoChar : String) :
    List String → List String
  | [] => []
  | p :: rest =>
    if strUpper p == promoChar then pawnSym :: rest
    else p :: consumePromoEntry pawnSym promoChar rest

/-- BoardItem.move_piece.  The result pairs the object state with the
python exception that would propagate, if any; on an error the state
component is the object state at raise time. -/
def movePiece (legal : Pos → Move → Bool) (s : GameState) (uci : String) :
    GameState × Option MoveErr :=
  let promotion : Option Char := if uci.length == 5 then uci.data.getLast? else none
  match parse_uci legal s.pos uci with
  | .error e => (s, some e)
  | .ok move =>
    let movingPiece := pieceAt s.pos move.fromFile move.fromRank
    let capturedPiece0 := pieceAt s.pos move.toFile move.toRank
    let capturedPiece :=
      match movingPiece with
      | some mp =>
        if mp.kind == PieceKind.pawn && Nat.dist move.toFile move.fromFile == 1 &&
            capturedPiece0.isNone then
          pieceAt s.pos move.toFile move.fromRank
        else capturedPiece0
      | none => capturedPiece0
    let s1 :=
      match capturedPiece with
      | some cp =>
        if cp.white then { s with capturedWhite := s.capturedWhite ++ [cp.symbol] }
        else { s with capturedBlack := s.capturedBlack ++ [cp.symbol] }
      | none => s
    let isPromotion :=
      match movingPiece with
      | some mp => mp.kind == PieceKind.pawn && (promotion.isSome || move.promo.isSome)
      | none => false
    if isPromotion then
      match movingPiece, promotion with
      | some mp, some pc =>
        match promoMap pc.toUpper with
        | some promoKind =>
          let promoChar := strUpper (String.singleton pc)
          let pos' := pushMove s.pos move (some promoKind)
          let s2 :=
            if mp.white then
              { s1 with
                  pos := pos'
                  whitePromos := consumePromoEntry "P" promoChar s1.whitePromos }
            else
              { s1 with
                  pos := pos'
                  blackPromos := consumePromoEntry "p" promoChar s1.blackPromos }
          (updateFromChess s2, none)
        | none => (s1, some .keyError)
      | _, _ => (s1, some .typeError)
    else
      (updateFromChess { s1 with pos := pushMove s.pos move none }, none)

/-! ### BoardItem.plan_path -/

/-- A labeled leg of a planned move; the path component is None when the
astar helper found no route. -/
abbrev Leg := String × Option (List Node)

/-- Ample fuel: an astar run on a 19×23 grid pops at most
1 + 8 * 438 < 4000 heap entries, so this fuel is never exhausted. -/
def astarFuel : Nat := 4000

/-- The capture slot search of plan_path: the first slot of the table whose
state board cell still shows its own 1-based index, as a node coordinate. -/
def firstFreeSlotNode : Nat → List (Nat × Nat) → Grid → Option Node
  | _, [], _ => none
  | i, rc :: rest, sb =>
    if getCellN sb rc.1 rc.2 == toString (i + 1) then some (rc.1 * 2, rc.2 * 2)
    else firstFreeSlotNode (i + 1) rest sb

/-- The promotion lane search of plan_path, rows 0 up to stateRows. -/
def findPromoNodeAux (sb : Grid) (promoCol : Nat) (pcu : String) :
    Nat → Nat → Option Node
  | _, 0 => none
  | r, rem+1 =>
    if strUpper (getCellN sb r promoCol) == pcu then some (r * 2, promoCol * 2)
    else findPromoNodeAux sb promoCol pcu (r + 1) rem

def findPromoNode (sb : Grid) (promoCol : Nat) (pcu : String) : Option Node :=
  findPromoNodeAux sb promoCol pcu 0 stateRows

/-- The promotion block of plan_path (source lines 506-530): locate the
bank piece in the promotion lane of the state board (raising like the
source's subscripted None when it is absent), route the pawn to the side
lane node, block that node while routing the bank piece out, restore it,
and finish with the literal two node hop. -/
def planPromoBlock (sb ng : Grid) (startNode endNode : Node) (white : Bool)
    (pc : Char) (capLegs : List Leg) : Except MoveErr (List Leg) × Grid :=
  let promoCol := if white then 0 else 11
  let pcu := strUpper (String.singleton pc)
  match findPromoNode sb promoCol pcu with
  | none => (.error .typeError, ng)
  | some promoNode =>
    let sideCol := if promoCol == 0 then 1 else nodeCols - 2
    let sideNode : Node := (promoNode.1, sideCol)
    let leg1 : Leg := ("promotion_pawn", astar ng astarFuel startNode sideNode)
    let saved := getCellN ng sideNode.1 sideNode.2
    let g1 := setCellN ng sideNode.1 sideNode.2 "#"
    let leg2 : Leg := ("promotion_piece", astar g1 astarFuel promoNode endNode)
    let g2 := setCellN g1 sideNode.1 sideNode.2 saved
    let leg3 : Leg := ("promotion_pawn_final", some [sideNode, promoNode])
    (.ok (capLegs ++ [leg1, leg2, leg3]), g2)

/-- BoardItem.plan_path.  The result pairs the outcome (the ordered labeled
legs, or the python exception that would propagate) with the node grid as
plan_path leaves it. -/
def planPath (legal : Pos → Move → Bool) (s : GameState) (uci : String) :
    Except MoveErr (List Leg) × Grid :=
  let promotion : Option Char := if uci.length == 5 then uci.data.getLast? else none
  match parse_uci legal s.pos uci with
  | .error e => (.error e, s.nodeGrid)
  | .ok move =>
    let sr := move.fromRank
    let sc := move.fromFile
    let er := move.toRank
    let ec := move.toFile
    let startNode : Node := ((8 - sr) * 2, (sc + 2) * 2)
    let endNode : Node := ((8 - er) * 2, (ec + 2) * 2)
    match pieceAt s.pos sc sr with
    | some p =>
      if p.kind == PieceKind.king && Nat.dist ec sc > 1 then
        let kingPath := astar s.nodeGrid astarFuel startNode endNode
        let rsf := if ec > sc then 7 else 0
        let ref := if ec > sc then ec - 1 else ec + 1
        let rookStartNode : Node := ((8 - sr) * 2, (rsf + 2) * 2)
        let rookEndNode : Node := ((8 - sr) * 2, (ref + 2) * 2)
        let saved := getCellN s.nodeGrid endNode.1 endNode.2
        let g1 := setCellN s.nodeGrid endNode.1 endNode.2 "#"
        let rookPath := astar g1 astarFuel rookStartNode rookEndNode
        let g2 := setCellN g1 endNode.1 endNode.2 saved
        (.ok [("castle_king", kingPath), ("castle_rook", rookPath)], g2)
      else
        let capturedPiece0 := pieceAt s.pos ec er
        let isEp := p.kind == PieceKind.pawn && Nat.dist ec sc == 1 && capturedPiece0.isNone
        let capturedPiece := if isEp then pieceAt s.pos ec sr else capturedPiece0
        let capLegs : List Leg :=
          match capturedPiece with
          | none => []
          | some cp =>
            let caps := if cp.white then whiteCaptures else blackCaptures
            if isEp then
              let capturedNode : Node := ((8 - sr) * 2, (ec + 2) * 2)
              match firstFreeSlotNode 0 caps s.stateBoard with
              | some slotNode =>
                [("capture", astar s.nodeGrid astarFuel capturedNode slotNode)]
              | none => []
            else
              match firstFreeSlotNode 0 caps s.stateBoard with
              | some capNode =>
                [("capture", astar s.nodeGrid astarFuel endNode capNode)]
              | none => []
        let isPromo := promotion.isSome && p.kind == PieceKind.pawn
        if isPromo then
          -- promotion is present whenever isPromo holds
          planPromoBlock s.stateBoard s.nodeGrid startNode endNode p.white
            (promotion.getD 'q') capLegs
        else
          (.ok (capLegs ++ [("move", astar s.nodeGrid astarFuel startNode endNode)]),
            s.nodeGrid)
    | none => (.error .attrError, s.nodeGrid)

/-! ### Concrete states used by witnesses -/

/-- A legality oracle that accepts everything (the library's verdict is
external to the code under study). -/
def allowAll : Pos → Move → Bool := fun _ _ => true

/-- White king e1, white rook h1, black king e8. -/
def castlePos : Pos :=
  [((4,0), ⟨.king, true⟩), ((7,0), ⟨.rook, true⟩), ((4,7), ⟨.king, false⟩)]

def castleState : GameState :=
  let sb := populateStateBoard castlePos [] [] initWhitePromos initBlackPromos
  ⟨castlePos, [], [], initWhitePromos, initBlackPromos, sb, populateNodeGrid sb⟩

/-- White pawn e5, black pawn d5 (which just advanced d7d5), kings. -/
def epPos : Pos :=
  [((4,4), ⟨.pawn, true⟩), ((3,4), ⟨.pawn, false⟩),
   ((4,0), ⟨.king, true⟩), ((4,7), ⟨.king, false⟩)]

def epState : GameState :=
  let sb := populateStateBoard epPos [] [] initWhitePromos initBlackPromos
  ⟨epPos, [], [], initWhitePromos, initBlackPromos, sb, populateNodeGrid sb⟩

/-- White pawn a7 about to promote, kings. -/
def promoPos : Pos :=
  [((0,6), ⟨.pawn, true⟩), ((4,0), ⟨.king, true⟩), ((4,7), ⟨.king, false⟩)]

def promoState : GameState :=
  let sb := populateStateBoard promoPos [] [] initWhitePromos initBlackPromos
  ⟨promoPos, [], [], initWhitePromos, initBlackPromos, sb, populateNodeGrid sb⟩

/-- The promotion position with every white queen bank entry already
consumed (read as pawn markers). -/
def exhaustedWhitePromos : List String := ["B","N","R","P","P","P","P","B","N","R"]

def promoStateX : GameState :=
  let sb := populateStateBoard promoPos [] [] exhaustedWhitePromos initBlackPromos
  ⟨promoPos, [], [], exhaustedWhitePromos, initBlackPromos, sb, populateNodeGrid sb⟩

theorem findPromoNodeAux_bound {sb : Grid} {col : Nat} {pcu : String} :
    ∀ (rem r : Nat) (n : Node), findPromoNodeAux sb col pcu r rem = some n →
      n.1 + 2 ≤ (r + rem) * 2 ∧ n.2 = col * 2 := by
  intro rem
  induction rem with
  | zero => intro r n h; simp [findPromoNodeAux] at h
  | succ k ih =>
    intro r n h
    unfold findPromoNodeAux at h
    split at h
    · cases h
      exact ⟨by omega, rfl⟩
    · have := ih (r + 1) n h
      exact ⟨by omega, this.2⟩

theorem findPromoNode_bound {sb : Grid} {col : Nat} {pcu : String} {n : Node}
    (h : findPromoNode sb col pcu = some n) : n.1 ≤ 18 ∧ n.2 = col * 2 := by
  have := findPromoNodeAux_bound stateRows 0 n h
  unfold stateRows at this
  exact ⟨by omega, this.2⟩

/-! ### Claim C7: plan_path restores the node grid -/

theorem planPromoBlock_grid {sb ng : Grid} {startNode endNode : Node} {white : Bool}
    {pc : Char} {capLegs : List Leg} (h : gridWF ng nodeRows nodeCols) :
    (planPromoBlock sb ng startNode endNode white pc capLegs).2 = ng := by
  cases white <;>
    (unfold planPromoBlock
     simp only [if_true, if_false, Bool.false_eq_true, Bool.true_eq_false]
     split
     · rfl
     · rename_i promoNode hfind
       obtain ⟨hb1, hb2⟩ := findPromoNode_bound hfind
       exact setCellN_cancel h (by unfold nodeRows; omega) (by decide) _)

/-- Claim C7: for every move, plan_path leaves the node grid exactly as it
found it: the temporary impassable marks placed while planning castling or
promotion are restored from the saved cell value on every exit path, and no
other cell of the node grid is written at all. -/
theorem c7_planPath_restores_grid (legal : Pos → Move → Bool) (s : GameState)
    (uci : String) (h : gridWF s.nodeGrid nodeRows nodeCols) :
    (planPath legal s uci).2 = s.nodeGrid := by
  unfold planPath
  simp only []
  split
  · rfl
  · rename_i move hok
    obtain ⟨hparse, _⟩ := parse_uci_ok hok
    obtain ⟨hf, hr, ht, hu⟩ := parseUciStr_bounds hparse
    split
    · rename_i p _
      split
      · -- castling: block then restore the king destination node
        exact setCellN_cancel h (by unfold nodeRows; omega) (by unfold nodeCols; omega) _
      · -- non-castling: the promotion block restores the side lane node on
        -- both of its exits; every other exit leaves the grid untouched
        repeat' split
        all_goals first
          | rfl
          | exact planPromoBlock_grid h
    · rfl

set_option maxRecDepth 100000 in
/-- Witness for c7_planPath_restores_grid on a concrete en passant plan. -/
theorem c7_planPath_restores_grid_witness :
    (planPath allowAll epState "e5d6").2 = epState.nodeGrid :=
  c7_planPath_restores_grid allowAll epState "e5d6" (by decide)

/-! ### Claim C8: castling plans exactly two legs and the rook avoids the
king's destination -/

/-- Reading back a just-written cell on a well-shaped grid. -/
theorem getCellN_setCellN_self {g : Grid} {rows cols r c : Nat} (h : gridWF g rows cols)
    (hr : r < rows) (hc : c < cols) (v : Cell) :
    getCellN (setCellN g r c v) r c = v := by
  obtain ⟨hlen, hrows⟩ := h
  have hrg : r < g.length := by omega
  cases hg : g.get? r with
  | none => rw [List.get?_eq_none] at hg; omega
  | some row =>
    have hrowlen : row.length = cols := hrows row (List.get?_mem hg)
    unfold setCellN getCellN
    rw [hg]
    simp only [Option.getD_some]
    rw [list_get?_set_self (row.set c v) g r hrg]
    simp only [Option.getD_some]
    rw [list_get?_set_self v row c (by omega)]
    rfl

/-- Every node produced by the neighbors helper reads as empty, as a numeric
placeholder, or is the goal itself. -/
theorem mem_neighbors_cellOK {g : Grid} {r c : Nat} {goal b : Node}
    (hb : b ∈ neighbors g r c goal) :
    (getCellN g b.1 b.2 == "." || isDigitStr (getCellN g b.1 b.2) || b == goal) = true := by
  unfold neighbors at hb
  obtain ⟨d, _, hsome⟩ := List.mem_filterMap.mp hb
  simp only [checkNeighbor] at hsome
  split at hsome
  · split at hsome
    · rename_i hcond
      split at hsome
      · split at hsome
        · simp at hsome
        · cases hsome; simpa using hcond
      · cases hsome; simpa using hcond
    · simp at hsome
  · simp at hsome

/-- Along a valid path, every node other than the head reads as empty, as a
numeric placeholder, or is the goal. -/
theorem validPath_cellOK {g : Grid} {goal : Node} :
    ∀ {p : List Node} {hd : Node}, validPath g goal p = true → p.head? = some hd →
    ∀ b ∈ p, b = hd ∨
      (getCellN g b.1 b.2 == "." || isDigitStr (getCellN g b.1 b.2) || b == goal) = true := by
  intro p
  induction p with
  | nil => intro hd _ hh; simp at hh
  | cons a rest ih =>
    intro hd hv hh b hb
    simp only [List.head?_cons, Option.some.injEq] at hh
    subst hh
    rcases List.mem_cons.mp hb with rfl | hb2
    · exact Or.inl rfl
    · cases rest with
      | nil => simp at hb2
      | cons a2 rest2 =>
        rw [validPath_cons_cons, Bool.and_eq_true] at hv
        have hok2 := mem_neighbors_cellOK (of_decide_eq_true hv.1)
        rcases ih hv.2 rfl b hb2 with rfl | h2
        · exact Or.inr hok2
        · exact Or.inr h2

/-- Claim C8: for a castling move (king moving from the e file to the g or
c file on its own rank), plan_path yields exactly the two legs castle_king
then castle_rook, and when the rook leg found a path, that path never
contains the king's destination node (which is blocked while the rook is
routed). -/
theorem c8_castling_legs (legal : Pos → Move → Bool) (s : GameState) (uci : String)
    (move : Move) (w : Bool)
    (h : gridWF s.nodeGrid nodeRows nodeCols)
    (hok : parse_uci legal s.pos uci = .ok move)
    (hking : pieceAt s.pos move.fromFile move.fromRank = some ⟨.king, w⟩)
    (hsc : move.fromFile = 4) (hec : move.toFile = 6 ∨ move.toFile = 2)
    (her : move.toRank = move.fromRank) :
    ∃ p1 p2,
      (planPath legal s uci).1 = .ok [("castle_king", p1), ("castle_rook", p2)] ∧
      ∀ q, p2 = some q → ((8 - move.toRank) * 2, (move.toFile + 2) * 2) ∉ q := by
  obtain ⟨hparse, _⟩ := parse_uci_ok hok
  obtain ⟨hf, hr, ht, hu⟩ := parseUciStr_bounds hparse
  unfold planPath
  rw [hok]
  simp only []
  rw [hking]
  simp only []
  have hcond : (PieceKind.king == PieceKind.king &&
      decide (Nat.dist move.toFile move.fromFile > 1)) = true := by
    rcases hec with he | he <;> simp [hsc, he, Nat.dist]
  rw [hcond, if_pos rfl]
  refine ⟨_, _, rfl, ?_⟩
  intro q hq
  intro hmemq
  obtain ⟨hhead, _, hvalid⟩ := astar_sound hq
  have hWF1 : gridWF (setCellN s.nodeGrid ((8 - move.toRank) * 2)
      ((move.toFile + 2) * 2) "#") nodeRows nodeCols := by
    obtain ⟨hlen, hrows⟩ := h
    constructor
    · rw [length_setCellN]; exact hlen
    · intro row hrow
      unfold setCellN at hrow
      rcases List.mem_or_eq_of_mem_set hrow with h1 | h1
      · exact hrows row h1
      · subst h1
        rw [List.length_set]
        cases hg : s.nodeGrid.get? ((8 - move.toRank) * 2) with
        | none =>
          rw [List.get?_eq_none] at hg
          unfold nodeRows at hlen
          omega
        | some r0 =>
          simp only [hg, Option.getD_some]
          exact hrows r0 (List.get?_mem hg)
  have hcell : getCellN (setCellN s.nodeGrid ((8 - move.toRank) * 2)
      ((move.toFile + 2) * 2) "#") ((8 - move.toRank) * 2) ((move.toFile + 2) * 2) = "#" :=
    getCellN_setCellN_self h (by unfold nodeRows; omega) (by unfold nodeCols; omega) _
  have hdot : (("#" : Cell) == ".") = false := by decide
  have hdig : isDigitStr "#" = false := by decide
  rcases validPath_cellOK hvalid hhead _ hmemq with heq | hok2
  · -- the blocked destination cannot be the rook start node
    rcases hec with he | he <;>
      (rw [her, hsc, he] at heq
       simp at heq)
  · -- nor a routable cell: it reads as the block marker and differs from
    -- the rook goal node
    rw [hcell, hdot, hdig] at hok2
    simp only [Bool.false_or, beq_iff_eq] at hok2
    rcases hec with he | he <;>
      (rw [her, hsc, he] at hok2
       simp at hok2)

set_option maxRecDepth 100000 in
/-- Witness for c8_castling_legs: white kingside castling e1g1 with the rook
on h1. -/
theorem c8_castling_legs_witness :
    ∃ p1 p2,
      (planPath allowAll castleState "e1g1").1 =
        .ok [("castle_king", p1), ("castle_rook", p2)] ∧
      ∀ q, p2 = some q → ((8 - (0:Nat)) * 2, ((6:Nat) + 2) * 2) ∉ q :=
  c8_castling_legs allowAll castleState "e1g1" ⟨4, 0, 6, 0, none⟩ true
    (by decide) rfl (by decide) rfl (Or.inl rfl) rfl

/-! ### Claim C4: structural en passant handling -/

theorem parseUciStr_promo_none {u : String} {m : Move} (h : parseUciStr u = some m)
    (hlen : u.length ≠ 5) : m.promo = none := by
  unfold parseUciStr at h
  split at h
  · split at h
    · cases h; rfl
    · simp at h
  · rename_i f1 r1 f2 r2 pc heq
    exfalso
    apply hlen
    have : u.length = u.data.length := rfl
    rw [this, heq]
    rfl
  · simp at h

/-- Claim C4: for an en passant move (pawn, one file sideways, empty
destination), the captured pawn's square is derived structurally as origin
rank, destination file.  plan_path emits exactly one capture leg and it
routes FROM the node of that square (plus the mover's own move leg), and
move_piece appends the pawn found on that square to its color's capture
list. -/
theorem c4_en_passant (legal : Pos → Move → Bool) (s : GameState) (uci : String)
    (move : Move) (mp q : Piece) (slotNode : Node)
    (hok : parse_uci legal s.pos uci = .ok move)
    (hlen : uci.length ≠ 5)
    (hmp : pieceAt s.pos move.fromFile move.fromRank = some mp)
    (hpk : mp.kind = PieceKind.pawn)
    (hdiag : Nat.dist move.toFile move.fromFile = 1)
    (hempty : pieceAt s.pos move.toFile move.toRank = none)
    (hq : pieceAt s.pos move.toFile move.fromRank = some q)
    (hslot : firstFreeSlotNode 0 (if q.white then whiteCaptures else blackCaptures)
      s.stateBoard = some slotNode) :
    (planPath legal s uci).1 = .ok
      [("capture", astar s.nodeGrid astarFuel
          ((8 - move.fromRank) * 2, (move.toFile + 2) * 2) slotNode),
       ("move", astar s.nodeGrid astarFuel
          ((8 - move.fromRank) * 2, (move.fromFile + 2) * 2)
          ((8 - move.toRank) * 2, (move.toFile + 2) * 2))] ∧
    (∀ p, astar s.nodeGrid astarFuel
        ((8 - move.fromRank) * 2, (move.toFile + 2) * 2) slotNode = some p →
      p.head? = some ((8 - move.fromRank) * 2, (move.toFile + 2) * 2)) ∧
    (movePiece legal s uci).2 = none ∧
    (if q.white then
      (movePiece legal s uci).1.capturedWhite = s.capturedWhite ++ [q.symbol] ∧
      (movePiece legal s uci).1.capturedBlack = s.capturedBlack
     else
      (movePiece legal s uci).1.capturedWhite = s.capturedWhite ∧
      (movePiece legal s uci).1.capturedBlack = s.capturedBlack ++ [q.symbol]) := by
  obtain ⟨hparse, _⟩ := parse_uci_ok hok
  have hpromoN : move.promo = none := parseUciStr_promo_none hparse hlen
  have hlen5 : (uci.length == 5) = false := by
    simp only [beq_eq_false_iff_ne, ne_eq]
    exact hlen
  have hnotking : (mp.kind == PieceKind.king) = false := by rw [hpk]; rfl
  have hispawn : (mp.kind == PieceKind.pawn) = true := by rw [hpk]; rfl
  have hdiag' : (Nat.dist move.toFile move.fromFile == 1) = true := by
    rw [hdiag]; rfl
  refine ⟨?_, fun p hp => (astar_sound hp).1, ?_, ?_⟩
  · unfold planPath
    rw [hok]
    simp only []
    rw [hmp]
    simp only [hnotking, Bool.false_and, Bool.false_eq_true, if_false,
      hempty, hispawn, hdiag', hlen5]
    simp only [hq, Option.isNone_none, Bool.and_true, Bool.and_self, if_true]
    rw [hslot]
    simp only [Option.isSome_none, Bool.false_and, Bool.false_eq_true, if_false]
    rfl
  · unfold movePiece
    rw [hok]
    simp only []
    rw [hmp, hempty]
    simp only [hispawn, hdiag', Option.isNone_none, Bool.and_true, Bool.and_self,
      if_true, hq, hlen5, hpromoN, Option.isSome_none, Bool.or_self,
      Bool.and_false, Bool.false_eq_true, if_false]
  · unfold movePiece
    rw [hok]
    simp only []
    rw [hmp, hempty]
    simp only [hispawn, hdiag', Option.isNone_none, Bool.and_true, Bool.and_self,
      if_true, hq, hlen5, hpromoN, Option.isSome_none, Bool.or_self,
      Bool.and_false, Bool.false_eq_true, if_false]
    cases hw : q.white <;>
      simp [hw, updateFromChess_capturedWhite, updateFromChess_capturedBlack]

set_option maxRecDepth 1000000 in
/-- Witness for c4_en_passant: white pawn e5 takes the black pawn that just
played d7d5 via e5d6; the capture leg starts at the d5 node (8,10), not the
d6 node. -/
theorem c4_en_passant_witness :
    (planPath allowAll epState "e5d6").1 = .ok
      [("capture", astar epState.nodeGrid astarFuel (8, 10) (6, 2)),
       ("move", astar epState.nodeGrid astarFuel (8, 12) (6, 10))] ∧
    (∀ p, astar epState.nodeGrid astarFuel (8, 10) (6, 2) = some p →
      p.head? = some (8, 10)) ∧
    (movePiece allowAll epState "e5d6").2 = none ∧
    ((movePiece allowAll epState "e5d6").1.capturedWhite = epState.capturedWhite ∧
      (movePiece allowAll epState "e5d6").1.capturedBlack =
        epState.capturedBlack ++ [Piece.symbol ⟨PieceKind.pawn, false⟩]) :=
  c4_en_passant allowAll epState "e5d6" ⟨4, 4, 3, 5, none⟩ ⟨PieceKind.pawn, true⟩
    ⟨PieceKind.pawn, false⟩ (6, 2) rfl (by decide) (by decide) rfl (by decide)
    (by decide) (by decide) (by decide)

/-! ### Claim C6: promotion bank consumption is exactly once -/

/-- Number of bank entries whose uppercase form matches the promotion letter. -/
def promoMatchCount (pcU : String) (l : List String) : Nat :=
  (l.filter (fun x => strUpper x == pcU)).length

theorem consume_spec {ps pcU : String} :
    ∀ l : List String, (∃ x ∈ l, strUpper x = pcU) →
    ∃ i e, l.get? i = some e ∧ strUpper e = pcU ∧
      consumePromoEntry ps pcU l = l.set i ps := by
  intro l
  induction l with
  | nil => intro h; simp at h
  | cons p rest ih =>
    intro h
    by_cases hm : (strUpper p == pcU) = true
    · refine ⟨0, p, rfl, by simpa using hm, ?_⟩
      unfold consumePromoEntry
      rw [if_pos hm]
      rfl
    · have hrest : ∃ x ∈ rest, strUpper x = pcU := by
        obtain ⟨x, hx, hxu⟩ := h
        rcases List.mem_cons.mp hx with rfl | hx2
        · exact absurd (by simp [hxu]) hm
        · exact ⟨x, hx2, hxu⟩
      obtain ⟨i, e, h1, h2, h3⟩ := ih hrest
      refine ⟨i + 1, e, h1, h2, ?_⟩
      unfold consumePromoEntry
      rw [if_neg hm, h3]
      rfl

theorem count_consume {ps pcU : String} (hps : strUpper ps ≠ pcU) :
    ∀ l : List String, (∃ x ∈ l, strUpper x = pcU) →
      promoMatchCount pcU (consumePromoEntry ps pcU l) + 1 = promoMatchCount pcU l := by
  intro l
  induction l with
  | nil => intro h; simp at h
  | cons p rest ih =>
    intro h
    by_cases hm : (strUpper p == pcU) = true
    · unfold consumePromoEntry
      rw [if_pos hm]
      unfold promoMatchCount
      rw [List.filter_cons, List.filter_cons]
      have hps' : (strUpper ps == pcU) = false := by
        simp only [beq_eq_false_iff_ne, ne_eq]
        exact hps
      rw [hps', hm]
      simp
    · have hrest : ∃ x ∈ rest, strUpper x = pcU := by
        obtain ⟨x, hx, hxu⟩ := h
        rcases List.mem_cons.mp hx with rfl | hx2
        · exact absurd (by simp [hxu]) hm
        · exact ⟨x, hx2, hxu⟩
      unfold consumePromoEntry
      rw [if_neg hm]
      unfold promoMatchCount
      rw [List.filter_cons, List.filter_cons]
      have hm' : (strUpper p == pcU) = false := by
        simpa using hm
      rw [hm']
      exact ih hrest

theorem consume_pointwise {ps pcU : String} :
    ∀ (l : List String) (j : Nat),
      (consumePromoEntry ps pcU l).get? j = l.get? j ∨
      (consumePromoEntry ps pcU l).get? j = some ps := by
  intro l
  induction l with
  | nil => intro j; exact Or.inl rfl
  | cons p rest ih =>
    intro j
    by_cases hm : (strUpper p == pcU) = true
    · unfold consumePromoEntry
      rw [if_pos hm]
      cases j with
      | zero => exact Or.inr rfl
      | succ j => exact Or.inl rfl
    · unfold consumePromoEntry
      rw [if_neg hm]
      cases j with
      | zero => exact Or.inl rfl
      | succ j => exact ih j

set_option linter.unusedTactic false in
/-- Across any single move_piece call, each bank entry is either untouched
or overwritten with the corresponding pawn marker; nothing else is ever
written into a bank. -/
theorem movePiece_promos_pointwise (legal : Pos → Move → Bool) (s : GameState)
    (uci : String) (j : Nat) :
    (((movePiece legal s uci).1).whitePromos.get? j = s.whitePromos.get? j ∨
      ((movePiece legal s uci).1).whitePromos.get? j = some "P") ∧
    (((movePiece legal s uci).1).blackPromos.get? j = s.blackPromos.get? j ∨
      ((movePiece legal s uci).1).blackPromos.get? j = some "p") := by
  unfold movePiece
  simp only []
  constructor <;>
    (repeat' split
     all_goals
       try simp only [updateFromChess_whitePromos, updateFromChess_blackPromos,
         true_or, or_true]
     all_goals
       first
         | trivial
         | (left; rfl)
         | apply consume_pointwise)

/-- The promo_map never maps a letter to a pawn, so the uppercase promotion
letter is never a pawn marker. -/
theorem promoMap_promoChar_ne_P {pc : Char} {pk : PieceKind}
    (hmap : promoMap pc.toUpper = some pk) :
    strUpper (String.singleton pc) ≠ "P" := by
  intro hcontra
  have hdata : (String.singleton pc).data.map Char.toUpper = "P".data := by
    rw [show ("P" : String) = strUpper (String.singleton pc) from hcontra.symm]
    rfl
  have : pc.toUpper = 'P' := by
    simpa [String.singleton] using hdata
  rw [this] at hmap
  simp [promoMap] at hmap

/-- Claim C6: applying a promotion move consumes exactly one matching bank
entry of the mover's color: some entry matching the requested kind is
overwritten with the pawn marker, the count of matching entries drops by
exactly one, every other entry of that bank and the whole other bank are
unchanged — and across arbitrary later moves a consumed (pawn marker)
entry is never restored. -/
theorem c6_promotion_bank (legal : Pos → Move → Bool) (s : GameState) (uci : String)
    (move : Move) (mp : Piece) (pc : Char) (pk : PieceKind)
    (hok : parse_uci legal s.pos uci = .ok move)
    (hlen5 : uci.length = 5)
    (hpc : uci.data.getLast? = some pc)
    (hmap : promoMap pc.toUpper = some pk)
    (hmp : pieceAt s.pos move.fromFile move.fromRank = some mp)
    (hpk : mp.kind = PieceKind.pawn)
    (hbank : ∃ x ∈ (if mp.white then s.whitePromos else s.blackPromos),
      strUpper x = strUpper (String.singleton pc)) :
    ((movePiece legal s uci).2 = none ∧
      ∃ i e,
        (if mp.white then s.whitePromos else s.blackPromos).get? i = some e ∧
        strUpper e = strUpper (String.singleton pc) ∧
        (if mp.white then (movePiece legal s uci).1.whitePromos
          else (movePiece legal s uci).1.blackPromos) =
          (if mp.white then s.whitePromos else s.blackPromos).set i
            (if mp.white then "P" else "p") ∧
        promoMatchCount (strUpper (String.singleton pc))
            (if mp.white then (movePiece legal s uci).1.whitePromos
              else (movePiece legal s uci).1.blackPromos) + 1 =
          promoMatchCount (strUpper (String.singleton pc))
            (if mp.white then s.whitePromos else s.blackPromos) ∧
        (∀ j, j ≠ i →
          (if mp.white then (movePiece legal s uci).1.whitePromos
            else (movePiece legal s uci).1.blackPromos).get? j =
          (if mp.white then s.whitePromos else s.blackPromos).get? j) ∧
        (if mp.white then (movePiece legal s uci).1.blackPromos = s.blackPromos
          else (movePiece legal s uci).1.whitePromos = s.whitePromos)) ∧
    (∀ legal₂ s₂ uci₂ j,
      (s₂.whitePromos.get? j = some "P" →
        ((movePiece legal₂ s₂ uci₂).1).whitePromos.get? j = some "P") ∧
      (s₂.blackPromos.get? j = some "p" →
        ((movePiece legal₂ s₂ uci₂).1).blackPromos.get? j = some "p")) := by
  have hne : strUpper (String.singleton pc) ≠ "P" := promoMap_promoChar_ne_P hmap
  have hneP : strUpper "P" ≠ strUpper (String.singleton pc) := by
    intro hcontra
    exact hne (by rw [← hcontra]; rfl)
  have hnep : strUpper "p" ≠ strUpper (String.singleton pc) := by
    intro hcontra
    exact hne (by rw [← hcontra]; rfl)
  have hlen5' : (uci.length == 5) = true := by rw [hlen5]; rfl
  have hispawn : (mp.kind == PieceKind.pawn) = true := by rw [hpk]; rfl
  constructor
  · unfold movePiece
    rw [hok]
    simp only []
    rw [hmp]
    simp only [hlen5', if_true, hpc, hispawn, Option.isSome_some, Bool.true_or,
      Bool.and_self, Bool.true_and, Bool.and_true]
    rw [hmap]
    simp only []
    cases hw : mp.white with
    | true =>
      simp only [hw, if_true]
      obtain ⟨i, e, h1, h2, h3⟩ := @consume_spec
        "P" (strUpper (String.singleton pc)) s.whitePromos
        (by simpa [hw] using hbank)
      refine ⟨?_, i, e, h1, h2, ?_, ?_, ?_, ?_⟩ <;>
        (repeat' split
         all_goals
           simp only [updateFromChess_whitePromos, updateFromChess_blackPromos])
      all_goals
        first
          | rfl
          | exact h3
          | (rw [h3]; intro j hj; exact list_get?_set_ne _ _ _ _ (fun hc => hj hc.symm))
          | (rw [h3, ← h3]
             exact count_consume hneP s.whitePromos (by simpa [hw] using hbank))
    | false =>
      simp only [hw, Bool.false_eq_true, if_false]
      obtain ⟨i, e, h1, h2, h3⟩ := @consume_spec
        "p" (strUpper (String.singleton pc)) s.blackPromos
        (by simpa [hw] using hbank)
      refine ⟨?_, i, e, h1, h2, ?_, ?_, ?_, ?_⟩ <;>
        (repeat' split
         all_goals
           simp only [updateFromChess_whitePromos, updateFromChess_blackPromos])
      all_goals
        first
          | rfl
          | exact h3
          | (rw [h3]; intro j hj; exact list_get?_set_ne _ _ _ _ (fun hc => hj hc.symm))
          | (rw [h3, ← h3]
             exact count_consume hnep s.blackPromos (by simpa [hw] using hbank))
  · intro legal₂ s₂ uci₂ j
    have hpt := movePiece_promos_pointwise legal₂ s₂ uci₂ j
    constructor
    · intro hj
      rcases hpt.1 with h | h
      · rw [h, hj]
      · exact h
    · intro hj
      rcases hpt.2 with h | h
      · rw [h, hj]
      · exact h

set_option maxRecDepth 1000000 in
/-- Witness for c6_promotion_bank: promotion a7a8q from a bank still holding
its queens. -/
theorem c6_promotion_bank_witness :
    ((movePiece allowAll promoState "a7a8q").2 = none ∧
      ∃ i e,
        promoState.whitePromos.get? i = some e ∧
        strUpper e = strUpper (String.singleton 'q') ∧
        (movePiece allowAll promoState "a7a8q").1.whitePromos =
          promoState.whitePromos.set i "P" ∧
        promoMatchCount (strUpper (String.singleton 'q'))
            ((movePiece allowAll promoState "a7a8q").1.whitePromos) + 1 =
          promoMatchCount (strUpper (String.singleton 'q')) promoState.whitePromos ∧
        (∀ j, j ≠ i →
          (movePiece allowAll promoState "a7a8q").1.whitePromos.get? j =
          promoState.whitePromos.get? j) ∧
        (movePiece allowAll promoState "a7a8q").1.blackPromos =
          promoState.blackPromos) ∧
    (∀ legal₂ s₂ uci₂ j,
      (s₂.whitePromos.get? j = some "P" →
        ((movePiece legal₂ s₂ uci₂).1).whitePromos.get? j = some "P") ∧
      (s₂.blackPromos.get? j = some "p" →
        ((movePiece legal₂ s₂ uci₂).1).blackPromos.get? j = some "p")) :=
  c6_promotion_bank allowAll promoState "a7a8q" ⟨0, 6, 0, 7, some 'q'⟩
    ⟨PieceKind.pawn, true⟩ 'q' PieceKind.queen rfl (by decide) (by decide)
    (by decide) (by decide) rfl (by decide)

/-! ### Claim C3: behavior when the promotion bank is exhausted -/

theorem consume_nomatch {ps pcU : String} :
    ∀ l : List String, (∀ x ∈ l, strUpper x ≠ pcU) →
      consumePromoEntry ps pcU l = l := by
  intro l
  induction l with
  | nil => intro _; rfl
  | cons p rest ih =>
    intro h
    have hp : (strUpper p == pcU) = false := by
      simp only [beq_eq_false_iff_ne, ne_eq]
      exact h p (List.mem_cons_self _ _)
    unfold consumePromoEntry
    rw [if_neg (by simp [hp])]
    rw [ih (fun x hx => h x (List.mem_cons_of_mem _ hx))]

theorem findPromoNodeAux_none {sb : Grid} {col : Nat} {pcu : String} :
    ∀ (rem r : Nat), (∀ k, k < rem → strUpper (getCellN sb (r + k) col) ≠ pcu) →
      findPromoNodeAux sb col pcu r rem = none := by
  intro rem
  induction rem with
  | zero => intro r _; rfl
  | succ n ih =>
    intro r h
    unfold findPromoNodeAux
    rw [if_neg (by
      simp only [beq_iff_eq]
      have := h 0 (by omega)
      simpa using this)]
    exact ih (r + 1) (fun k hk => by
      have := h (k + 1) (by omega)
      simpa [Nat.add_assoc, Nat.add_comm, Nat.add_left_comm] using this)

set_option maxRecDepth 1000000 in
/-- Claim C3, counterexample: with every white queen bank entry already
consumed, the promotion a7a8q does NOT fail with any surfaced bank error in
move_piece — the chess move is applied as a normal promotion, the banks are
left unchanged, and no error is returned; plan_path, by contrast, dies with
an unhandled TypeError (subscripting the missing lane entry), not a
BankExhausted error. -/
theorem c3_counterexample :
    (movePiece allowAll promoStateX "a7a8q").2 = none ∧
    (movePiece allowAll promoStateX "a7a8q").1.whitePromos = promoStateX.whitePromos ∧
    (movePiece allowAll promoStateX "a7a8q").1.blackPromos = promoStateX.blackPromos ∧
    (movePiece allowAll promoStateX "a7a8q").1.pos ≠ promoStateX.pos ∧
    (planPath allowAll promoStateX "a7a8q").1 = .error .typeError := by
  exact ⟨by decide, by decide, by decide, by decide, rfl⟩

/-- Claim C3 (amended): when no promotion-bank entry of the mover's color
matches the requested kind (and accordingly no lane cell of the state board
shows that kind), move_piece proceeds as a normal promotion — it applies
the chess move, returns no error, and leaves both banks unchanged — while
plan_path raises an unhandled TypeError before emitting any promotion leg.
No BankExhausted error exists in the code. -/
theorem c3_exhausted_bank (legal : Pos → Move → Bool) (s : GameState) (uci : String)
    (move : Move) (mp : Piece) (pc : Char) (pk : PieceKind)
    (hok : parse_uci legal s.pos uci = .ok move)
    (hlen5 : uci.length = 5)
    (hpc : uci.data.getLast? = some pc)
    (hmap : promoMap pc.toUpper = some pk)
    (hmp : pieceAt s.pos move.fromFile move.fromRank = some mp)
    (hpk : mp.kind = PieceKind.pawn)
    (hbank : ∀ x ∈ (if mp.white then s.whitePromos else s.blackPromos),
      strUpper x ≠ strUpper (String.singleton pc))
    (hlane : ∀ r, r < stateRows →
      strUpper (getCellN s.stateBoard r (if mp.white then 0 else 11)) ≠
        strUpper (String.singleton pc)) :
    (movePiece legal s uci).2 = none ∧
    (movePiece legal s uci).1.whitePromos = s.whitePromos ∧
    (movePiece legal s uci).1.blackPromos = s.blackPromos ∧
    (movePiece legal s uci).1.pos = pushMove s.pos move (some pk) ∧
    (planPath legal s uci).1 = .error .typeError := by
  have hlen5' : (uci.length == 5) = true := by rw [hlen5]; rfl
  have hispawn : (mp.kind == PieceKind.pawn) = true := by rw [hpk]; rfl
  have hnotking : (mp.kind == PieceKind.king) = false := by rw [hpk]; rfl
  have hmove4 :
      (movePiece legal s uci).2 = none ∧
      (movePiece legal s uci).1.whitePromos = s.whitePromos ∧
      (movePiece legal s uci).1.blackPromos = s.blackPromos ∧
      (movePiece legal s uci).1.pos = pushMove s.pos move (some pk) := by
    unfold movePiece
    rw [hok]
    simp only []
    rw [hmp]
    simp only [hlen5', if_true, hpc, hispawn, Option.isSome_some, Bool.true_or,
      Bool.and_self, Bool.true_and, Bool.and_true]
    rw [hmap]
    simp only []
    cases hw : mp.white with
    | true =>
      simp only [hw, if_true]
      refine ⟨?_, ?_, ?_, ?_⟩ <;>
        (repeat' split
         all_goals
           simp only [updateFromChess_whitePromos, updateFromChess_blackPromos,
             updateFromChess_pos]
         all_goals
           first
             | rfl
             | exact consume_nomatch _ (by simpa [hw] using hbank))
    | false =>
      simp only [hw, Bool.false_eq_true, if_false]
      refine ⟨?_, ?_, ?_, ?_⟩ <;>
        (repeat' split
         all_goals
           simp only [updateFromChess_whitePromos, updateFromChess_blackPromos,
             updateFromChess_pos]
         all_goals
           first
             | rfl
             | exact consume_nomatch _ (by simpa [hw] using hbank))
  obtain ⟨h1, h2, h3, h4⟩ := hmove4
  refine ⟨h1, h2, h3, h4, ?_⟩
  unfold planPath
  rw [hok]
  simp only []
  rw [hmp]
  simp only [hnotking, Bool.false_and, Bool.false_eq_true, if_false,
    hlen5', if_true, hpc, Option.isSome_some, hispawn, Bool.true_and, Bool.and_self]
  unfold planPromoBlock
  cases hw : mp.white with
  | true =>
    simp only [hw, if_true]
    rw [show findPromoNode s.stateBoard 0 (strUpper (String.singleton
        ((some pc).getD 'q'))) = none from
      findPromoNodeAux_none stateRows 0 (fun k hk => by
        have := hlane k (by simpa using hk)
        rw [hw] at this
        simpa using this)]
  | false =>
    simp only [hw, Bool.false_eq_true, if_false]
    rw [show findPromoNode s.stateBoard 11 (strUpper (String.singleton
        ((some pc).getD 'q'))) = none from
      findPromoNodeAux_none stateRows 0 (fun k hk => by
        have := hlane k (by simpa using hk)
        rw [hw] at this
        simpa using this)]

set_option maxRecDepth 1000000 in
/-- Witness for c3_exhausted_bank at the concrete exhausted-bank promotion. -/
theorem c3_exhausted_bank_witness :
    (movePiece allowAll promoStateX "a7a8q").2 = none ∧
    (movePiece allowAll promoStateX "a7a8q").1.whitePromos = promoStateX.whitePromos ∧
    (movePiece allowAll promoStateX "a7a8q").1.blackPromos = promoStateX.blackPromos ∧
    (movePiece allowAll promoStateX "a7a8q").1.pos =
      pushMove promoStateX.pos ⟨0, 6, 0, 7, some 'q'⟩ (some PieceKind.queen) ∧
    (planPath allowAll promoStateX "a7a8q").1 = .error .typeError :=
  c3_exhausted_bank allowAll promoStateX "a7a8q" ⟨0, 6, 0, 7, some 'q'⟩
    ⟨PieceKind.pawn, true⟩ 'q' PieceKind.queen rfl (by decide) (by decide)
    (by decide) (by decide) rfl (by decide) (by decide)

/-! ### Claim C5: capture slot assignment -/

theorem list_set_oob {α : Type} (a : α) :
    ∀ (l : List α) (i : Nat), l.length ≤ i → l.set i a = l := by
  intro l
  induction l with
  | nil => intro i _; rfl
  | cons x t ih =>
    intro i h
    cases i with
    | zero => simp only [List.length_cons] at h; omega
    | succ i =>
      simp only [List.set]
      rw [ih i (by simp only [List.length_cons] at h; omega)]

theorem list_mem_set {α : Type} (b : α) :
    ∀ (l : List α) (i : Nat) (a : α), a ∈ l.set i b → a ∈ l ∨ a = b := by
  intro l
  induction l with
  | nil => intro i a h; simp at h
  | cons x t ih =>
    intro i a h
    cases i with
    | zero =>
      rcases List.mem_cons.1 h with h | h
      · right; exact h
      · left; exact List.mem_cons_of_mem x h
    | succ i =>
      rcases List.mem_cons.1 h with h | h
      · left; exact h ▸ List.mem_cons_self x t
      · rcases ih i a h with h | h
        · left; exact List.mem_cons_of_mem x h
        · right; exact h

theorem list_get?_replicate {α : Type} (a : α) :
    ∀ (n m : Nat), m < n → (List.replicate n a).get? m = some a := by
  intro n
  induction n with
  | zero => intro m h; omega
  | succ n ih =>
    intro m h
    cases m with
    | zero => rfl
    | succ m => exact ih m (by omega)

theorem pair_ne_split {a b r c : Nat} (h : (a, b) ≠ (r, c)) : a ≠ r ∨ b ≠ c := by
  by_cases ha : a = r
  · right
    intro hb
    exact h (by rw [ha, hb])
  · left
    exact ha

/-- A write at one cell leaves every other cell unchanged. -/
theorem getCellN_setCellN_ne {g : Grid} {r c r' c' : Nat} {v : Cell}
    (h : r' ≠ r ∨ c' ≠ c) :
    getCellN (setCellN g r' c' v) r c = getCellN g r c := by
  unfold getCellN setCellN
  by_cases hr : r' = r
  · rw [hr]
    have hcne : c' ≠ c := by
      rcases h with h | h
      · exact absurd hr h
      · exact h
    cases hg : g.get? r with
    | none =>
      have hlen : g.length ≤ r := List.get?_eq_none.1 hg
      rw [list_set_oob _ g r hlen, hg]
    | some row =>
      have hrg : r < g.length := by
        rcases Nat.lt_or_ge r g.length with h2 | h2
        · exact h2
        · rw [List.get?_eq_none.2 h2] at hg; exact Option.noConfusion hg
      rw [list_get?_set_self _ g r hrg]
      simp only [Option.getD_some]
      rw [list_get?_set_ne _ row c' c hcne]
  · rw [list_get?_set_ne _ g r' r hr]

/-- Writing a cell keeps the rectangular shape of a grid. -/
theorem gridWF_setCellN {g : Grid} {rows cols : Nat} (h : gridWF g rows cols)
    (r c : Nat) (v : Cell) : gridWF (setCellN g r c v) rows cols := by
  obtain ⟨hlen, hrows⟩ := h
  by_cases hr : r < g.length
  · cases hg : g.get? r with
    | none => rw [List.get?_eq_none] at hg; omega
    | some row =>
      refine ⟨?_, ?_⟩
      · simp only [setCellN, List.length_set]; exact hlen
      · intro row2 hrow2
        rcases list_mem_set _ _ _ _ hrow2 with hmem | heq
        · exact hrows row2 hmem
        · rw [heq, hg]
          simp only [Option.getD_some, List.length_set]
          exact hrows row (List.get?_mem hg)
  · simp only [setCellN]
    rw [list_set_oob _ g r (by omega)]
    exact ⟨hlen, hrows⟩

/-- The freshly allocated state board reads as empty everywhere in range. -/
theorem getCellN_empty {r c : Nat} (hr : r < stateRows) (hc : c < stateCols) :
    getCellN emptyStateBoard r c = "." := by
  unfold getCellN emptyStateBoard
  rw [list_get?_replicate _ stateRows r hr]
  simp only [Option.getD_some]
  rw [list_get?_replicate _ stateCols c hc]
  rfl

theorem gridWF_writeBoardFiles {rows cols : Nat} (pos : Pos) (rank : Nat) :
    ∀ (n : Nat) (g : Grid), gridWF g rows cols →
      gridWF (writeBoardFiles pos rank n g) rows cols := by
  intro n
  induction n with
  | zero => intro g h; exact h
  | succ n ih =>
    intro g h
    simp only [writeBoardFiles]
    cases hp : pieceAt pos n (7 - rank) with
    | none => simp only [hp]; exact ih g h
    | some p => simp only [hp]; exact gridWF_setCellN (ih g h) _ _ _

theorem gridWF_writeBoardRanks {rows cols : Nat} (pos : Pos) :
    ∀ (n : Nat) (g : Grid), gridWF g rows cols →
      gridWF (writeBoardRanks pos n g) rows cols := by
  intro n
  induction n with
  | zero => intro g h; exact h
  | succ n ih =>
    intro g h
    simp only [writeBoardRanks]
    exact gridWF_writeBoardFiles pos n 8 _ (ih g h)

theorem gridWF_writePromoLane {rows cols : Nat} (col : Nat) :
    ∀ (l : List String) (i : Nat) (g : Grid), gridWF g rows cols →
      gridWF (writePromoLane col i l g) rows cols := by
  intro l
  induction l with
  | nil => intro i g h; exact h
  | cons p rest ih =>
    intro i g h
    simp only [writePromoLane]
    exact ih (i + 1) _ (gridWF_setCellN h _ _ _)

theorem gridWF_writeCaptured {rows cols : Nat} (slots : List (Nat × Nat)) :
    ∀ (l : List String) (i : Nat) (g : Grid), gridWF g rows cols →
      gridWF (writeCaptured slots i l g) rows cols := by
  intro l
  induction l with
  | nil => intro i g h; exact h
  | cons p rest ih =>
    intro i g h
    simp only [writeCaptured]
    cases hs : slots.get? i with
    | none => simp only [hs]; exact ih (i + 1) g h
    | some rc0 => simp only [hs]; exact ih (i + 1) _ (gridWF_setCellN h _ _ _)

theorem gridWF_writePlaceholders {rows cols : Nat} :
    ∀ (slots : List (Nat × Nat)) (i : Nat) (g : Grid), gridWF g rows cols →
      gridWF (writePlaceholders i slots g) rows cols := by
  intro slots
  induction slots with
  | nil => intro i g h; exact h
  | cons rc0 rest ih =>
    intro i g h
    simp only [writePlaceholders]
    by_cases hdot : (getCellN g rc0.1 rc0.2 == ".") = true
    · rw [if_pos hdot]
      exact ih (i + 1) _ (gridWF_setCellN h _ _ _)
    · rw [if_neg hdot]
      exact ih (i + 1) g h

/-- The board mapping loop never writes outside rows 1–8 and columns 2–9. -/
theorem writeBoardFiles_miss (pos : Pos) (rank : Nat) {r c : Nat}
    (hcond : c < 2 ∨ 9 < c ∨ r ≠ rank + 1) :
    ∀ (n : Nat), n ≤ 8 → ∀ (g : Grid),
      getCellN (writeBoardFiles pos rank n g) r c = getCellN g r c := by
  intro n
  induction n with
  | zero => intro _ g; rfl
  | succ n ih =>
    intro hn g
    simp only [writeBoardFiles]
    cases hp : pieceAt pos n (7 - rank) with
    | none => simp only [hp]; exact ih (by omega) g
    | some p =>
      simp only [hp]
      have hne : rank + 1 ≠ r ∨ n + 2 ≠ c := by omega
      rw [getCellN_setCellN_ne hne]
      exact ih (by omega) g

theorem writeBoardRanks_miss (pos : Pos) {r c : Nat}
    (hcond : c < 2 ∨ 9 < c ∨ r = 0 ∨ 8 < r) :
    ∀ (n : Nat), n ≤ 8 → ∀ (g : Grid),
      getCellN (writeBoardRanks pos n g) r c = getCellN g r c := by
  intro n
  induction n with
  | zero => intro _ g; rfl
  | succ n ih =>
    intro hn g
    simp only [writeBoardRanks]
    rw [writeBoardFiles_miss pos n (by omega) 8 (Nat.le_refl 8), ih (by omega) g]

/-- The promotion lane loop only writes its own column. -/
theorem writePromoLane_miss (col : Nat) {r c : Nat} (hcne : c ≠ col) :
    ∀ (l : List String) (i : Nat) (g : Grid),
      getCellN (writePromoLane col i l g) r c = getCellN g r c := by
  intro l
  induction l with
  | nil => intro i g; rfl
  | cons p rest ih =>
    intro i g
    simp only [writePromoLane]
    rw [ih (i + 1) _, getCellN_setCellN_ne (Or.inr (fun hco => hcne hco.symm))]

/-- The captured-piece loop leaves every cell alone that is not one of the
slots it actually fills. -/
theorem writeCaptured_miss (slots : List (Nat × Nat)) {r c : Nat} :
    ∀ (l : List String) (i : Nat) (g : Grid),
      (∀ j, i ≤ j → j < i + l.length → slots.get? j ≠ some (r, c)) →
      getCellN (writeCaptured slots i l g) r c = getCellN g r c := by
  intro l
  induction l with
  | nil => intro i g _; rfl
  | cons p rest ih =>
    intro i g hmiss
    simp only [writeCaptured]
    cases hsi : slots.get? i with
    | none =>
      simp only [hsi]
      exact ih (i + 1) g
        (fun j h1 h2 => hmiss j (by omega) (by simp only [List.length_cons]; omega))
    | some rc0 =>
      simp only [hsi]
      rw [ih (i + 1) _
        (fun j h1 h2 => hmiss j (by omega) (by simp only [List.length_cons]; omega))]
      have hne : rc0 ≠ (r, c) := by
        intro he
        exact hmiss i (Nat.le_refl i) (by simp only [List.length_cons]; omega)
          (by rw [hsi, he])
      obtain ⟨a, b⟩ := rc0
      exact getCellN_setCellN_ne (pair_ne_split hne)

/-- The i-th captured piece of the loop's list lands at the i-th slot of the
slot table and survives the rest of the loop. -/
theorem writeCaptured_hit {rows cols r c : Nat} (slots : List (Nat × Nat))
    (hnd : slots.Nodup) (hr : r < rows) (hc : c < cols) :
    ∀ (l : List String) (i k : Nat) (g : Grid) (v : String),
      gridWF g rows cols → slots.get? (i + k) = some (r, c) → l.get? k = some v →
      getCellN (writeCaptured slots i l g) r c = v := by
  intro l
  induction l with
  | nil =>
    intro i k g v _ _ hv
    rcases k with _ | k <;> exact Option.noConfusion hv
  | cons p rest ih =>
    intro i k g v hwf hs hv
    simp only [writeCaptured]
    cases k with
    | zero =>
      rw [Nat.add_zero] at hs
      have hpv : p = v := by
        have h0 : (p :: rest).get? 0 = some p := rfl
        rw [h0] at hv
        exact Option.some.inj hv
      simp only [hs]
      rw [writeCaptured_miss slots rest (i + 1) _ ?hrest]
      case hrest =>
        intro j hj1 hj2 hj
        have hjlen : j < slots.length := by
          rcases Nat.lt_or_ge j slots.length with h2 | h2
          · exact h2
          · rw [List.get?_eq_none.2 h2] at hj; exact Option.noConfusion hj
        have hje : j = i := by
          apply List.getElem?_inj hjlen hnd
          rw [← List.get?_eq_getElem?, ← List.get?_eq_getElem?, hj, hs]
        omega
      rw [getCellN_setCellN_self hwf hr hc]
      exact hpv
    | succ k2 =>
      have hs2 : slots.get? (i + 1 + k2) = some (r, c) := by
        have harith : i + 1 + k2 = i + (k2 + 1) := by omega
        rw [harith]
        exact hs
      have hv2 : rest.get? k2 = some v := hv
      cases hsi : slots.get? i with
      | none =>
        simp only [hsi]
        exact ih (i + 1) k2 g v hwf hs2 hv2
      | some rc0 =>
        simp only [hsi]
        exact ih (i + 1) k2 _ v (gridWF_setCellN hwf _ _ _) hs2 hv2

/-- The numbering pass leaves alone every cell that is not one of its slots. -/
theorem writePlaceholders_miss {r c : Nat} :
    ∀ (slots : List (Nat × Nat)) (i : Nat) (g : Grid), (r, c) ∉ slots →
      getCellN (writePlaceholders i slots g) r c = getCellN g r c := by
  intro slots
  induction slots with
  | nil => intro i g _; rfl
  | cons rc0 rest ih =>
    intro i g hmem
    have hne : rc0 ≠ (r, c) := by
      intro he
      exact hmem (List.mem_cons.2 (Or.inl he.symm))
    simp only [writePlaceholders]
    rw [ih (i + 1) _ (fun hm => hmem (List.mem_cons_of_mem _ hm))]
    obtain ⟨a, b⟩ := rc0
    split
    · exact getCellN_setCellN_ne (pair_ne_split hne)
    · rfl

/-- At its k-th slot, the numbering pass writes the 1-based slot index when
the cell still reads as empty and keeps the cell otherwise. -/
theorem writePlaceholders_hit {rows cols r c : Nat} (hr : r < rows) (hc : c < cols) :
    ∀ (slots : List (Nat × Nat)) (i k : Nat) (g : Grid),
      gridWF g rows cols → slots.Nodup → slots.get? k = some (r, c) →
      getCellN (writePlaceholders i slots g) r c =
        if (getCellN g r c == ".") = true then toString (i + k + 1)
        else getCellN g r c := by
  intro slots
  induction slots with
  | nil =>
    intro i k g _ _ hs
    rcases k with _ | k <;> exact Option.noConfusion hs
  | cons rc0 rest ih =>
    intro i k g hwf hnd hs
    obtain ⟨hhead, htail⟩ := List.nodup_cons.1 hnd
    simp only [writePlaceholders]
    cases k with
    | zero =>
      have hab : rc0 = (r, c) := by
        have h0 : (rc0 :: rest).get? 0 = some rc0 := rfl
        rw [h0] at hs
        exact Option.some.inj hs
      subst hab
      rw [writePlaceholders_miss rest (i + 1) _ hhead]
      dsimp only
      simp only [Nat.add_zero]
      by_cases hdot : (getCellN g r c == ".") = true
      · rw [if_pos hdot, if_pos hdot, getCellN_setCellN_self hwf hr hc]
      · rw [if_neg hdot, if_neg hdot]
    | succ k2 =>
      have hs2 : rest.get? k2 = some (r, c) := hs
      obtain ⟨a, b⟩ := rc0
      have hne2 : (a, b) ≠ (r, c) := by
        intro he
        exact hhead (he.symm ▸ List.get?_mem hs2)
      dsimp only
      have harith : i + 1 + k2 + 1 = i + (k2 + 1) + 1 := by omega
      by_cases hdot0 : (getCellN g a b == ".") = true
      · rw [if_pos hdot0,
            ih (i + 1) k2 _ (gridWF_setCellN hwf a b _) htail hs2,
            getCellN_setCellN_ne (pair_ne_split hne2), harith]
      · rw [if_neg hdot0, ih (i + 1) k2 g hwf htail hs2, harith]

/-- Across any move_piece call, each captured list only grows at its end:
the new list is the old list with zero or one symbols appended. -/
theorem movePiece_captured_extends (legal : Pos → Move → Bool) (s : GameState)
    (uci : String) :
    (∃ t, ((movePiece legal s uci).1).capturedWhite = s.capturedWhite ++ t) ∧
    (∃ t, ((movePiece legal s uci).1).capturedBlack = s.capturedBlack ++ t) := by
  unfold movePiece
  simp only []
  constructor <;>
    (repeat' split
     all_goals
       try simp only [updateFromChess_capturedWhite, updateFromChess_capturedBlack]
     all_goals
       first
         | exact ⟨[], (List.append_nil _).symm⟩
         | exact ⟨_, rfl⟩)

set_option maxRecDepth 10000 in
/-- Claim C5: capture slot assignment is monotonic.  In the regenerated state
board, the k-th slot of a color's predefined capture table shows the k-th
element of that color's captured list whenever it exists, and shows its own
1-based index as a free-slot marker otherwise, for every position, bank and
capture history; and move_piece only ever appends to a captured list, so
earlier captures keep their slots and are never reordered. -/
theorem c5_capture_slots (pos : Pos) (cw cb wp bp : List String) (k : Nat)
    (hk : k < 16) (_hcw : cw.length ≤ 16) (_hcb : cb.length ≤ 16)
    (hw : ∀ x ∈ cw, x ≠ ".") (hb : ∀ x ∈ cb, x ≠ ".") :
    (∀ r c, blackCaptures.get? k = some (r, c) →
      getCellN (populateStateBoard pos cw cb wp bp) r c
        = (cb.get? k).getD (toString (k + 1))) ∧
    (∀ r c, whiteCaptures.get? k = some (r, c) →
      getCellN (populateStateBoard pos cw cb wp bp) r c
        = (cw.get? k).getD (toString (k + 1))) ∧
    (∀ (legal : Pos → Move → Bool) (s : GameState) (uci : String),
      (∃ t, ((movePiece legal s uci).1).capturedWhite = s.capturedWhite ++ t) ∧
      (∃ t, ((movePiece legal s uci).1).capturedBlack = s.capturedBlack ++ t)) := by
  have hndB : blackCaptures.Nodup := by decide
  have hndW : whiteCaptures.Nodup := by decide
  have hpsb : populateStateBoard pos cw cb wp bp =
      writePlaceholders 0 whiteCaptures (writePlaceholders 0 blackCaptures
        (writeCaptured whiteCaptures 0 cw (writeCaptured blackCaptures 0 cb
          (writePromoLane 11 0 bp (writePromoLane 0 0 wp
            (writeBoardRanks pos 8 emptyStateBoard)))))) := rfl
  refine ⟨?_, ?_, movePiece_captured_extends⟩
  · intro r c hs
    have hmem : (r, c) ∈ blackCaptures := List.get?_mem hs
    obtain ⟨hbound1, hbound2⟩ : r < stateRows ∧ c < stateCols :=
      (show ∀ rc ∈ blackCaptures, rc.1 < stateRows ∧ rc.2 < stateCols by decide)
        _ hmem
    obtain ⟨hregion, hc0, hc11⟩ :
        (c < 2 ∨ 9 < c ∨ r = 0 ∨ 8 < r) ∧ c ≠ 0 ∧ c ≠ 11 :=
      (show ∀ rc ∈ blackCaptures,
          (rc.2 < 2 ∨ 9 < rc.2 ∨ rc.1 = 0 ∨ 8 < rc.1) ∧ rc.2 ≠ 0 ∧ rc.2 ≠ 11
        by decide) _ hmem
    have hnotinW : (r, c) ∉ whiteCaptures :=
      (show ∀ rc ∈ blackCaptures, rc ∉ whiteCaptures by decide) _ hmem
    have h3 : getCellN (writePromoLane 11 0 bp (writePromoLane 0 0 wp
        (writeBoardRanks pos 8 emptyStateBoard))) r c = "." := by
      rw [writePromoLane_miss 11 hc11 bp 0 _,
          writePromoLane_miss 0 hc0 wp 0 _,
          writeBoardRanks_miss pos hregion 8 (Nat.le_refl 8) _,
          getCellN_empty hbound1 hbound2]
    have hwf3 : gridWF (writePromoLane 11 0 bp (writePromoLane 0 0 wp
        (writeBoardRanks pos 8 emptyStateBoard))) stateRows stateCols :=
      gridWF_writePromoLane 11 bp 0 _ (gridWF_writePromoLane 0 wp 0 _
        (gridWF_writeBoardRanks pos 8 emptyStateBoard (by decide)))
    have hwf4 : gridWF (writeCaptured blackCaptures 0 cb (writePromoLane 11 0 bp
        (writePromoLane 0 0 wp (writeBoardRanks pos 8 emptyStateBoard))))
        stateRows stateCols :=
      gridWF_writeCaptured blackCaptures cb 0 _ hwf3
    have hwf5 : gridWF (writeCaptured whiteCaptures 0 cw (writeCaptured
        blackCaptures 0 cb (writePromoLane 11 0 bp (writePromoLane 0 0 wp
          (writeBoardRanks pos 8 emptyStateBoard))))) stateRows stateCols :=
      gridWF_writeCaptured whiteCaptures cw 0 _ hwf4
    have hmissW : ∀ j, 0 ≤ j → j < 0 + cw.length →
        whiteCaptures.get? j ≠ some (r, c) :=
      fun j _ _ hj => hnotinW (List.get?_mem hj)
    rw [hpsb, writePlaceholders_miss whiteCaptures 0 _ hnotinW,
        writePlaceholders_hit hbound1 hbound2 blackCaptures 0 k _ hwf5 hndB hs,
        writeCaptured_miss whiteCaptures cw 0 _ hmissW]
    by_cases hkb : k < cb.length
    · obtain ⟨v, hv⟩ : ∃ v, cb.get? k = some v := by
        cases hvv : cb.get? k with
        | none => rw [List.get?_eq_none] at hvv; omega
        | some v => exact ⟨v, rfl⟩
      rw [writeCaptured_hit blackCaptures hndB hbound1 hbound2 cb 0 k _ v hwf3
            (by rw [Nat.zero_add]; exact hs) hv]
      have hvdot : ¬ (v == ".") = true := by
        have hvne : v ≠ "." := hb v (List.get?_mem hv)
        simpa using hvne
      rw [if_neg hvdot, hv]
      rfl
    · have hnone : cb.get? k = none := List.get?_eq_none.2 (by omega)
      have hmissB : ∀ j, 0 ≤ j → j < 0 + cb.length →
          blackCaptures.get? j ≠ some (r, c) := by
        intro j _ hjl hj
        have hk16 : k < blackCaptures.length := by
          have hlb : blackCaptures.length = 16 := by decide
          omega
        have hjlen : j < blackCaptures.length := by
          rcases Nat.lt_or_ge j blackCaptures.length with h2 | h2
          · exact h2
          · rw [List.get?_eq_none.2 h2] at hj; exact Option.noConfusion hj
        have hje : j = k := by
          apply List.getElem?_inj hjlen hndB
          rw [← List.get?_eq_getElem?, ← List.get?_eq_getElem?, hj, hs]
        omega
      rw [writeCaptured_miss blackCaptures cb 0 _ hmissB, h3]
      rw [if_pos (by decide), hnone, Nat.zero_add]
      rfl
  · intro r c hs
    have hmem : (r, c) ∈ whiteCaptures := List.get?_mem hs
    obtain ⟨hbound1, hbound2⟩ : r < stateRows ∧ c < stateCols :=
      (show ∀ rc ∈ whiteCaptures, rc.1 < stateRows ∧ rc.2 < stateCols by decide)
        _ hmem
    obtain ⟨hregion, hc0, hc11⟩ :
        (c < 2 ∨ 9 < c ∨ r = 0 ∨ 8 < r) ∧ c ≠ 0 ∧ c ≠ 11 :=
      (show ∀ rc ∈ whiteCaptures,
          (rc.2 < 2 ∨ 9 < rc.2 ∨ rc.1 = 0 ∨ 8 < rc.1) ∧ rc.2 ≠ 0 ∧ rc.2 ≠ 11
        by decide) _ hmem
    have hnotinB : (r, c) ∉ blackCaptures :=
      (show ∀ rc ∈ whiteCaptures, rc ∉ blackCaptures by decide) _ hmem
    have h3 : getCellN (writePromoLane 11 0 bp (writePromoLane 0 0 wp
        (writeBoardRanks pos 8 emptyStateBoard))) r c = "." := by
      rw [writePromoLane_miss 11 hc11 bp 0 _,
          writePromoLane_miss 0 hc0 wp 0 _,
          writeBoardRanks_miss pos hregion 8 (Nat.le_refl 8) _,
          getCellN_empty hbound1 hbound2]
    have hwf3 : gridWF (writePromoLane 11 0 bp (writePromoLane 0 0 wp
        (writeBoardRanks pos 8 emptyStateBoard))) stateRows stateCols :=
      gridWF_writePromoLane 11 bp 0 _ (gridWF_writePromoLane 0 wp 0 _
        (gridWF_writeBoardRanks pos 8 emptyStateBoard (by decide)))
    have hwf4 : gridWF (writeCaptured blackCaptures 0 cb (writePromoLane 11 0 bp
        (writePromoLane 0 0 wp (writeBoardRanks pos 8 emptyStateBoard))))
        stateRows stateCols :=
      gridWF_writeCaptured blackCaptures cb 0 _ hwf3
    have hwf5 : gridWF (writeCaptured whiteCaptures 0 cw (writeCaptured
        blackCaptures 0 cb (writePromoLane 11 0 bp (writePromoLane 0 0 wp
          (writeBoardRanks pos 8 emptyStateBoard))))) stateRows stateCols :=
      gridWF_writeCaptured whiteCaptures cw 0 _ hwf4
    have hwf6 : gridWF (writePlaceholders 0 blackCaptures (writeCaptured
        whiteCaptures 0 cw (writeCaptured blackCaptures 0 cb (writePromoLane 11 0
          bp (writePromoLane 0 0 wp (writeBoardRanks pos 8 emptyStateBoard))))))
        stateRows stateCols :=
      gridWF_writePlaceholders blackCaptures 0 _ hwf5
    have hmissB : ∀ j, 0 ≤ j → j < 0 + cb.length →
        blackCaptures.get? j ≠ some (r, c) :=
      fun j _ _ hj => hnotinB (List.get?_mem hj)
    rw [hpsb, writePlaceholders_hit hbound1 hbound2 whiteCaptures 0 k _ hwf6 hndW hs,
        writePlaceholders_miss blackCaptures 0 _ hnotinB]
    by_cases hkw : k < cw.length
    · obtain ⟨v, hv⟩ : ∃ v, cw.get? k = some v := by
        cases hvv : cw.get? k with
        | none => rw [List.get?_eq_none] at hvv; omega
        | some v => exact ⟨v, rfl⟩
      rw [writeCaptured_hit whiteCaptures hndW hbound1 hbound2 cw 0 k _ v hwf4
            (by rw [Nat.zero_add]; exact hs) hv]
      have hvdot : ¬ (v == ".") = true := by
        have hvne : v ≠ "." := hw v (List.get?_mem hv)
        simpa using hvne
      rw [if_neg hvdot, hv]
      rfl
    · have hnone : cw.get? k = none := List.get?_eq_none.2 (by omega)
      have hmissW : ∀ j, 0 ≤ j → j < 0 + cw.length →
          whiteCaptures.get? j ≠ some (r, c) := by
        intro j _ hjl hj
        have hk16 : k < whiteCaptures.length := by
          have hlw : whiteCaptures.length = 16 := by decide
          omega
        have hjlen : j < whiteCaptures.length := by
          rcases Nat.lt_or_ge j whiteCaptures.length with h2 | h2
          · exact h2
          · rw [List.get?_eq_none.2 h2] at hj; exact Option.noConfusion hj
        have hje : j = k := by
          apply List.getElem?_inj hjlen hndW
          rw [← List.get?_eq_getElem?, ← List.get?_eq_getElem?, hj, hs]
        omega
      rw [writeCaptured_miss whiteCaptures cw 0 _ hmissW,
          writeCaptured_miss blackCaptures cb 0 _ hmissB, h3]
      rw [if_pos (by decide), hnone, Nat.zero_add]
      rfl

set_option maxRecDepth 100000 in
/-- Witness for c5_capture_slots: with two black captures and one white
capture, black slot 1 at (2,1) shows the second black capture and white
slot 1 at (7,1) shows its free-slot number 2. -/
theorem c5_capture_slots_witness :
    getCellN (populateStateBoard castlePos ["P"] ["p", "n"] initWhitePromos
      initBlackPromos) 2 1 = "n" ∧
    getCellN (populateStateBoard castlePos ["P"] ["p", "n"] initWhitePromos
      initBlackPromos) 7 1 = "2" := by
  have h := c5_capture_slots castlePos ["P"] ["p", "n"] initWhitePromos
    initBlackPromos 1 (by decide) (by decide) (by decide) (by decide) (by decide)
  refine ⟨?_, ?_⟩
  · exact (h.1 2 1 (by decide)).trans (by decide)
  · exact (h.2.1 7 1 (by decide)).trans (by decide)

/-! ### Claim C9: rebuilding the grids is idempotent -/

/-- Claim C9: update_from_chess (populate state board then node grid) is
idempotent — a second rebuild with no intervening move reproduces the same
StateGrid and NodeGrid, since both are functions of the position, capture
lists and promotion banks only. -/
theorem c9_update_idempotent (s : GameState) :
    updateFromChess (updateFromChess s) = updateFromChess s := by
  ext1 <;>
    simp only [updateFromChess_pos, updateFromChess_capturedWhite,
      updateFromChess_capturedBlack, updateFromChess_whitePromos,
      updateFromChess_blackPromos, updateFromChess_stateBoard,
      updateFromChess_nodeGrid]

/-! ### Claim C10: move_piece is atomic on rejected input -/

/-- Claim C10: when the input string does not decode to a square pair, or
decodes to a move the legality oracle rejects, move_piece raises before any
mutation: the returned object state is exactly the input state (position,
capture lists, banks, and both grids included). -/
theorem c10_reject_atomic (legal : Pos → Move → Bool) (s : GameState) (uci : String)
    (h : parseUciStr uci = none ∨
      ∀ m, parseUciStr uci = some m → legal s.pos m = false) :
    ∃ e, movePiece legal s uci = (s, some e) := by
  cases hp : parseUciStr uci with
  | none =>
    refine ⟨.malformed, ?_⟩
    simp [movePiece, parse_uci, hp]
  | some m =>
    rcases h with h | h
    · rw [h] at hp; cases hp
    · refine ⟨.illegal, ?_⟩
      simp [movePiece, parse_uci, hp, h m hp]

/-- Witness for c10_reject_atomic: an unparsable string on a concrete state. -/
theorem c10_reject_atomic_witness :
    ∃ e, movePiece allowAll castleState "zzzz" = (castleState, some e) :=
  c10_reject_atomic allowAll castleState "zzzz" (Or.inl (by decide))

end ChessGame
